import Mathlib

/-!
Verification of the dfars pipeline scripts.

Shallow embedding of the five batch scripts (parse_tracker.py,
fetch_citation.py, download_fr_htmls.py, extract_dfars_sections_ndaa.py,
add_ndaa_text.py).  Python strings are modelled as `List Char`; a pandas
NaN cell is modelled as `Option (List Char) = none`; code that can raise
an exception is modelled with `Except`.  External effects (HTTP, the file
system, the external JSON/regex helpers) are modelled as explicit function
parameters, so every stage becomes a pure function of its inputs.
-/

namespace Dfars

/- ── Python string primitives ─────────────────────────────────────── -/

/-- Default whitespace recognised by Python `str.strip()` (ASCII part). -/
def pyIsSpace (c : Char) : Bool :=
  c = ' ' || c = '\t' || c = '\n' || c = '\r' || c = '\x0b' || c = '\x0c'

/-- Python `s.strip()`: drop whitespace from both ends. -/
def pyStrip (s : List Char) : List Char :=
  ((s.dropWhile pyIsSpace).reverse.dropWhile pyIsSpace).reverse

/-- Helper for `splitOnChar`: accumulates the current (reversed) segment. -/
def splitOnCharGo (sep : Char) : List Char → List Char → List (List Char)
  | [], cur => [cur.reverse]
  | c :: t, cur =>
    if c = sep then cur.reverse :: splitOnCharGo sep t []
    else splitOnCharGo sep t (c :: cur)

/-- Python `s.split(sep)` for a single-character separator
(`"".split(sep) = [""]`, empty segments kept). -/
def splitOnChar (sep : Char) (s : List Char) : List (List Char) :=
  splitOnCharGo sep s []

/-- Python `s.split("\n")`. -/
def splitNL (s : List Char) : List (List Char) := splitOnChar '\n' s

/-- Python `"\n".join(xs)`. -/
def joinNL (xs : List (List Char)) : List Char := List.intercalate ['\n'] xs

/-- Python `[c.strip() for c in s.split("\n") if c.strip()]` — the
cell-splitting idiom used by fetch_citation.py, download_fr_htmls.py and
extract_dfars_sections_ndaa.py. -/
def cleanSplit (s : List Char) : List (List Char) :=
  ((splitNL s).map pyStrip).filter (fun x => !x.isEmpty)

/-- Fuel-driven core of Python `s.replace(pat, rep)`: replaces
non-overlapping occurrences left to right.  Fuel `s.length` suffices since
every step consumes at least one character of `s`. -/
def goRep (pat rep : List Char) : Nat → List Char → List Char
  | _, [] => []
  | 0, s => s
  | fuel + 1, c :: t =>
    if pat.isPrefixOf (c :: t) then rep ++ goRep pat rep fuel ((c :: t).drop pat.length)
    else c :: goRep pat rep fuel t

/-- Python `s.replace(pat, rep)` (the scripts never call it with an empty
pattern, so that case is left as the identity). -/
def replaceAll (s pat rep : List Char) : List Char :=
  if pat.isEmpty then s else goRep pat rep s.length s

/-- Python's substring test `pat in s`: does `pat` occur contiguously in
`s`? -/
def containsSub (pat : List Char) : List Char → Bool
  | [] => pat.isEmpty
  | c :: t => pat.isPrefixOf (c :: t) || containsSub pat t

/-- Numeric value of a string of decimal digits (`int(s)`). -/
def digitsVal (s : List Char) : Nat :=
  s.foldl (fun a c => a * 10 + (c.toNat - 48)) 0

/-- Decimal rendering of a natural number, as a character list. -/
def natChars (n : Nat) : List Char := (Nat.repr n).toList

/- ── fetch_citation.py : parse_fr_date ────────────────────────────── -/

/-- Gregorian leap-year rule used by Python's `datetime`. -/
def isLeap (y : Nat) : Bool :=
  y % 4 = 0 && (y % 100 ≠ 0 || y % 400 = 0)

/-- Days in a month, as validated by the `datetime` constructor. -/
def daysInMonth (y m : Nat) : Nat :=
  if m = 2 then (if isLeap y then 29 else 28)
  else if m = 4 || m = 6 || m = 9 || m = 11 then 30
  else 31

/-- Century mapping applied by `strptime` to a two-digit `%y` year:
00–68 → 2000–2068, 69–99 → 1969–1999. -/
def yyToYear (n : Nat) : Nat := if n ≤ 68 then 2000 + n else 1900 + n

/-- The characters matched by the regex class `[1-9]`. -/
def nonzeroDigits : List Char := "123456789".toList

/-- The day field of CPython `_strptime`
(`%d` regex `3[01]|[12]\d|0[1-9]|[1-9]| [1-9]`): either a 1–2 digit run
(whose value is range-checked by the caller) or a space followed by a
single digit 1–9 (the space-padded alternative).  Returns the day value
and the rest of the string after the field, `none` when no alternative
matches (with a following non-digit separator, the digit alternatives
must consume the whole leading digit run, so a run longer than two
digits fails). -/
def parseDayField (r2 : List Char) : Option (Nat × List Char) :=
  match r2 with
  | ' ' :: c :: r3 =>
    if c ∈ nonzeroDigits then some (digitsVal [c], r3) else none
  | _ =>
    let dS := r2.takeWhile Char.isDigit
    if dS.length = 0 ∨ 2 < dS.length then none
    else some (digitsVal dS, r2.dropWhile Char.isDigit)

/-- Models `datetime.strptime(s, "%m/%d/%y")` / `"%m/%d/%Y"` per CPython
`_strptime`: the month is a 1–2 digit run with value 1–12
(`1[0-2]|0[1-9]|[1-9]`), the day is `parseDayField` (including the
space-padded ` [1-9]` alternative), the year field is exactly 2 digits
for `%y` (regex `\d\d`, with the century mapping) and exactly 4 digits
for `%Y` (regex `\d\d\d\d`); literal slashes separate the fields, the
whole string must be consumed ("unconverted data remains" otherwise),
and the values must form a valid proleptic-Gregorian date (as checked by
the `datetime` constructor; `\d` is modelled as the ASCII digits).
Returns `(year, month, day)`. -/
def strptimeMDY (fourDigitYear : Bool) (s : List Char) : Option (Nat × Nat × Nat) :=
  let mS := s.takeWhile Char.isDigit
  if mS.length = 0 ∨ 2 < mS.length then none else
  match s.dropWhile Char.isDigit with
  | '/' :: r2 =>
    (match parseDayField r2 with
     | none => none
     | some (d, r3) =>
       match r3 with
       | '/' :: r4 =>
         let yS := r4.takeWhile Char.isDigit
         if yS.length ≠ (if fourDigitYear then 4 else 2) ∨
             r4.dropWhile Char.isDigit ≠ [] then none
         else
           let m := digitsVal mS
           let y := if fourDigitYear then digitsVal yS else yyToYear (digitsVal yS)
           if m = 0 ∨ 12 < m ∨ y = 0 ∨ 9999 < y ∨ d = 0 ∨ daysInMonth y m < d then
             none
           else some (y, m, d)
       | _ => none)
  | _ => none

/-- Zero-padded two-digit rendering used by `strftime` for `%m` and `%d`. -/
def pad2 (n : Nat) : List Char := if n < 10 then '0' :: natChars n else natChars n

/-- Models `date.strftime("%Y-%m-%d")` (glibc renders `%Y` unpadded). -/
def fmtIso (y m d : Nat) : List Char :=
  natChars y ++ '-' :: (pad2 m ++ '-' :: pad2 d)

/-- fetch_citation.py `parse_fr_date`: strip, then try `%m/%d/%y` and
`%m/%d/%Y` in that order, rendering a hit as `%Y-%m-%d`. -/
def parse_fr_date (s : List Char) : Option (List Char) :=
  let t := pyStrip s
  match strptimeMDY false t with
  | some (y, m, d) => some (fmtIso y m d)
  | none =>
    match strptimeMDY true t with
    | some (y, m, d) => some (fmtIso y m d)
    | none => none

/- ── fetch_citation.py : the __main__ per-row loop ─────────────────── -/

/-- Fuel-driven model of the date-padding `while` loop
(`while len(dates) < len(cits): dates.append(dates[-1])`).  Python's
`dates[-1]` on an empty list raises `IndexError`, modelled as `.error`.
Fuel `nCits` always suffices because each iteration appends one element.
At fuel 0 the remaining (unreachable) iterations are skipped. -/
def padDatesGo (nCits : Nat) : Nat → List (List Char) → Except Unit (List (List Char))
  | 0, dates => .ok dates
  | fuel + 1, dates =>
    if dates.length < nCits then
      match dates.getLast? with
      | none => .error ()
      | some d => padDatesGo nCits fuel (dates ++ [d])
    else .ok dates

/-- The date-padding loop of the fetch_citation.py row loop. -/
def padDates (nCits : Nat) (dates : List (List Char)) : Except Unit (List (List Char)) :=
  padDatesGo nCits nCits dates

/-- One row of the fetch_citation.py `__main__` loop.  `fetch` abstracts
`fetch_citation_by_date_and_page` (HTTP lookup): `some (title, url)` on a
match and `none` for any of its failure modes.  A `none` cell models a
pandas NaN (`str(nan) = "nan"`).  Returns the `(fr_title, fr_body_html_url)`
cell pair appended for the row, or `.error` when the row raises. -/
def processRow (fetch : List Char → List Char → Option (List Char × List Char))
    (citation_cell date_cell : Option (List Char)) :
    Except Unit (List Char × List Char) :=
  match citation_cell with
  | none => .ok ([], [])
  | some c0 =>
    if (pyStrip c0).isEmpty then .ok ([], []) else
    let ccell := pyStrip c0
    let dcell := match date_cell with
      | none => ("nan".toList)
      | some d0 => pyStrip d0
    let cits := cleanSplit ccell
    let dates := cleanSplit dcell
    match padDates cits.length dates with
    | .error e => .error e
    | .ok dates2 =>
      let resolved := (cits.zip dates2).map (fun cd =>
        match fetch cd.1 cd.2 with
        | some tu => tu
        | none => (("Not Found".toList), []))
      .ok (joinNL (resolved.map (·.1)), joinNL (resolved.map (·.2)))

/-- The whole fetch_citation.py row loop: an exception in any row aborts
the batch (nothing in `__main__` catches it). -/
def rowLoop (fetch : List Char → List Char → Option (List Char × List Char)) :
    List (Option (List Char) × Option (List Char)) →
    Except Unit (List (List Char × List Char))
  | [] => .ok []
  | r :: t =>
    match processRow fetch r.1 r.2 with
    | .error e => .error e
    | .ok out =>
      match rowLoop fetch t with
      | .error e => .error e
      | .ok rest => .ok (out :: rest)

/- ── add_ndaa_text.py ──────────────────────────────────────────────── -/

/-- add_ndaa_text.py `parse_fy`: `re.match(r"FY(\d+)", s)` anchors at the
start, the group is the maximal digit run; values below 100 get 2000 added. -/
def parse_fy (s : List Char) : Option Nat :=
  match s with
  | 'F' :: 'Y' :: rest =>
    let ds := rest.takeWhile Char.isDigit
    if ds.isEmpty then none
    else
      let n := digitsVal ds
      some (if n < 100 then 2000 + n else n)
  | _ => none

/-- add_ndaa_text.py `parse_section_enum`: `re.match(r"(\d+)", s)` — the
leading digit run plus a trailing period. -/
def parse_section_enum (s : List Char) : Option (List Char) :=
  let ds := s.takeWhile Char.isDigit
  if ds.isEmpty then none else some (ds ++ ['.'])

/-- Error sentinel `[Error: could not parse FY from '{s}']`. -/
def errParseFY (s : List Char) : List Char :=
  ("[Error: could not parse FY from \x27".toList) ++ s ++ ("\x27]".toList)

/-- Error sentinel `[Error: NDAA JSON not found for FY{fy}]`. -/
def errNoJson (fy : Nat) : List Char :=
  ("[Error: NDAA JSON not found for FY".toList) ++ natChars fy ++ [']']

/-- Error sentinel `[Error: could not parse section from '{s}']`. -/
def errParseSection (s : List Char) : List Char :=
  ("[Error: could not parse section from \x27".toList) ++ s ++ ("\x27]".toList)

/-- Error sentinel `[Not found: FY{fy} section {s}]`. -/
def errNoMatch (fy : Nat) (s : List Char) : List Char :=
  ("[Not found: FY".toList) ++ natChars fy ++ (" section ".toList) ++ s ++ [']']

/-- The `ndaa_cache` dict (`fiscal_year -> loaded ndaa json or None`),
as an association list; `none` records a `FileNotFoundError` from
`load_ndaa`. -/
def cacheGet {N : Type} (cache : List (Nat × Option N)) (fy : Nat) : Option (Option N) :=
  (cache.find? (fun e => e.1 = fy)).map (·.2)

/-- Body of `lookup_ndaa_text` after the NDAA JSON has been obtained. -/
def lookupBody {N S : Type} (find_sections : N → List Char → List S)
    (get_section_text_flat : S → List Char)
    (fy : Nat) (nd : N) (section_str : List Char) : List Char :=
  match parse_section_enum section_str with
  | none => errParseSection section_str
  | some en =>
    match find_sections nd en with
    | [] => errNoMatch fy section_str
    | sec0 :: _ => get_section_text_flat sec0

/-- add_ndaa_text.py `lookup_ndaa_text`: threads the `ndaa_cache` and
returns the text (or a bracketed sentinel) together with the updated cache.
`load_ndaa`, `find_sections` and `get_section_text_flat` live in the
external `ndaa_utils` module and are abstracted as function parameters
(`load_ndaa fy = none` models its `FileNotFoundError`). -/
def lookup_ndaa_text {N S : Type} (load_ndaa : Nat → Option N)
    (find_sections : N → List Char → List S)
    (get_section_text_flat : S → List Char)
    (cache : List (Nat × Option N)) (fy_str section_str : List Char) :
    List Char × List (Nat × Option N) :=
  match parse_fy fy_str with
  | none => (errParseFY fy_str, cache)
  | some fy =>
    match cacheGet cache fy with
    | none =>
      let v := load_ndaa fy
      let cache2 := cache ++ [(fy, v)]
      match v with
      | none => (errNoJson fy, cache2)
      | some nd => (lookupBody find_sections get_section_text_flat fy nd section_str, cache2)
    | some none => (errNoJson fy, cache)
    | some (some nd) => (lookupBody find_sections get_section_text_flat fy nd section_str, cache)

/-- The cache-free lookup result for one `(ndaa_year, ndaa_section)` pair;
used as the reference value in the statements below. -/
def lookupPure {N S : Type} (load_ndaa : Nat → Option N)
    (find_sections : N → List Char → List S)
    (get_section_text_flat : S → List Char)
    (fy_str section_str : List Char) : List Char :=
  (lookup_ndaa_text load_ndaa find_sections get_section_text_flat [] fy_str section_str).1

/-- An input row of the detail CSV as read by add_ndaa_text.py `main`
(only the join-key columns matter; `rest` stands for the other columns). -/
structure NdaaRow where
  ndaa_year : List Char
  ndaa_section : List Char
  rest : List Char
deriving DecidableEq, Repr

/-- An output row of add_ndaa_text.py `main`. -/
structure NdaaRowOut where
  ndaa_year : List Char
  ndaa_section : List Char
  rest : List Char
  ndaa_text : List Char
deriving DecidableEq, Repr

/-- The deduplicated `(ndaa_year, ndaa_section)` pairs of the rows.
Python builds a `set` and iterates `sorted(set)`; the model iterates the
first-occurrence deduplication — the per-pair results are independent of
the cache state (proved below), so the iteration order does not affect
the resulting `text_cache`. -/
def uniquePairs (rows : List NdaaRow) : List (List Char × List Char) :=
  (rows.map (fun r => (r.ndaa_year, r.ndaa_section))).dedup

/-- The `text_cache` of add_ndaa_text.py `main`: one lookup per unique
pair, threading the `ndaa_cache` through. -/
def buildTextCacheGo {N S : Type} (load_ndaa : Nat → Option N)
    (find_sections : N → List Char → List S)
    (get_section_text_flat : S → List Char) :
    List (List Char × List Char) → List (Nat × Option N) →
    List ((List Char × List Char) × List Char) →
    List ((List Char × List Char) × List Char)
  | [], _, tc => tc
  | p :: t, nc, tc =>
    let r := lookup_ndaa_text load_ndaa find_sections get_section_text_flat nc p.1 p.2
    buildTextCacheGo load_ndaa find_sections get_section_text_flat t r.2 (tc ++ [(p, r.1)])

/-- The `text_cache` for a row list. -/
def buildTextCache {N S : Type} (load_ndaa : Nat → Option N)
    (find_sections : N → List Char → List S)
    (get_section_text_flat : S → List Char) (rows : List NdaaRow) :
    List ((List Char × List Char) × List Char) :=
  buildTextCacheGo load_ndaa find_sections get_section_text_flat (uniquePairs rows) [] []

/-- add_ndaa_text.py `main`: build the text cache, then fan the cached
text back out to every row (`text_cache.get(key, "[Error: lookup failed]")`). -/
def addNdaaMain {N S : Type} (load_ndaa : Nat → Option N)
    (find_sections : N → List Char → List S)
    (get_section_text_flat : S → List Char) (rows : List NdaaRow) : List NdaaRowOut :=
  let tc := buildTextCache load_ndaa find_sections get_section_text_flat rows
  rows.map (fun r =>
    { ndaa_year := r.ndaa_year, ndaa_section := r.ndaa_section, rest := r.rest,
      ndaa_text :=
        match tc.find? (fun e => e.1 = (r.ndaa_year, r.ndaa_section)) with
        | some e => e.2
        | none => ("[Error: lookup failed]".toList) })

/- ── download_fr_htmls.py and URL handling ─────────────────────────── -/

/-- Returns the remainder of `s` after the first occurrence of `pat`
(`none` if `pat` does not occur). -/
def dropAfterSub (pat : List Char) : List Char → Option (List Char)
  | [] => if pat.isPrefixOf [] then some [] else none
  | c :: t =>
    if pat.isPrefixOf (c :: t) then some ((c :: t).drop pat.length)
    else dropAfterSub pat t

/-- Models the `.path` component of `urllib.parse.urlparse` for the
absolute http(s) URLs this pipeline handles: strip the fragment (after
the first `#`) and query (after the first `?`), then drop `scheme://netloc`
(everything up to the first `/` after the first `://`); a string without
`://` is treated as already being a path. -/
def urlPath (url : List Char) : List Char :=
  let base := (url.takeWhile (fun c => c ≠ '#')).takeWhile (fun c => c ≠ '?')
  match dropAfterSub ("://".toList) base with
  | some rest => rest.dropWhile (fun c => c ≠ '/')
  | none => base

/-- Everything after the last `/` — `os.path.basename` on a POSIX path,
also `path.split("/")[-1]`. -/
def lastSeg (s : List Char) : List Char :=
  (s.reverse.takeWhile (fun c => c ≠ '/')).reverse

/-- Python `s.rstrip("/")`. -/
def rstripSlash (s : List Char) : List Char :=
  (s.reverse.dropWhile (fun c => c = '/')).reverse

/-- download_fr_htmls.py `url_to_filename`:
`os.path.basename(urlparse(url.strip()).path)`. -/
def url_to_filename (url : List Char) : List Char :=
  lastSeg (urlPath (pyStrip url))

/-- extract_dfars_sections_ndaa.py `_extract_doc_id_from_url`
(leading underscore dropped for Lean): last path segment of the stripped
URL, minus every occurrence of `.html` (Python `str.replace` removes all
occurrences), `none` on an empty URL or empty result. -/
def extract_doc_id_from_url (url : List Char) : Option (List Char) :=
  let u := pyStrip url
  if u.isEmpty then none
  else
    let seg := lastSeg (rstripSlash (urlPath u))
    let doc_id := replaceAll seg (".html".toList) []
    if doc_id.isEmpty then none else some doc_id

/-- The `OUTPUT_DIR` constant of download_fr_htmls.py. -/
def outputDir : List Char := "./data/fr_cases/html_from_tracker".toList

/-- The URL-deduplication loop of download_fr_htmls.py `__main__`:
builds `download_list` of `(url, filepath)` pairs, skipping cells that are
NaN or blank and URLs already seen
(`filepath = os.path.join(OUTPUT_DIR, url_to_filename(url))`). -/
def buildDownloadListGo : List (Option (List Char)) → List (List Char) →
    List (List Char × List Char) → List (List Char × List Char)
  | [], _, acc => acc
  | cell :: t, seen, acc =>
    match cell with
    | none => buildDownloadListGo t seen acc
    | some u =>
      if (pyStrip u).isEmpty then buildDownloadListGo t seen acc
      else
        let step := (cleanSplit u).foldl
          (fun (pr : List (List Char) × List (List Char × List Char)) url =>
            if url ∈ pr.1 then pr
            else (url :: pr.1, pr.2 ++ [(url, outputDir ++ '/' :: url_to_filename url)]))
          (seen, acc)
        buildDownloadListGo t step.1 step.2

/-- The `download_list` for a column of `fr_body_html_url` cells. -/
def buildDownloadList (cells : List (Option (List Char))) : List (List Char × List Char) :=
  buildDownloadListGo cells [] []

/-- The download loop of download_fr_htmls.py `__main__`.
`fs : filepath → Option size` models the cache directory
(`os.path.exists` / `os.path.getsize`); `net : url → Option body` models
`requests.get` inside `download_html` (`none` = any exception, caught there
and reported as `False`).  Returns
`(success, failed, network_requests, final fs)`. -/
def runDownloads (net : List Char → Option (List Char)) :
    List (List Char × List Char) → (List Char → Option Nat) →
    Nat × Nat × Nat × (List Char → Option Nat)
  | [], fs => (0, 0, 0, fs)
  | (url, fp) :: t, fs =>
    match fs fp with
    | some sz =>
      if 0 < sz then
        let r := runDownloads net t fs
        (r.1 + 1, r.2.1, r.2.2.1, r.2.2.2)
      else
        -- empty file: re-download (download_html)
        match net url with
        | some body =>
          let fs2 := fun p => if p = fp then some body.length else fs p
          let r := runDownloads net t fs2
          (r.1 + 1, r.2.1, r.2.2.1 + 1, r.2.2.2)
        | none =>
          let r := runDownloads net t fs
          (r.1, r.2.1 + 1, r.2.2.1 + 1, r.2.2.2)
    | none =>
      match net url with
      | some body =>
        let fs2 := fun p => if p = fp then some body.length else fs p
        let r := runDownloads net t fs2
        (r.1 + 1, r.2.1, r.2.2.1 + 1, r.2.2.2)
      | none =>
        let r := runDownloads net t fs
        (r.1, r.2.1 + 1, r.2.2.1 + 1, r.2.2.2)

/- ── parse_tracker.py ──────────────────────────────────────────────── -/

/-- Output row of parse_tracker.py. -/
structure TrackerRow where
  ndaa_year : List Char
  ndaa_section : List Char
  paragraph : List Char
  section_title : List Char
  status : List Char
  case_number : List Char
  frn_citation : List Char
  fr_date : List Char
deriving DecidableEq, Repr

/-- Python `(row[i] or "")` — pdfplumber cells may be `None`, and Python
`or` also maps an empty string to `""`. -/
def cellAt (row : List (Option (List Char))) (i : Nat) : List Char :=
  (row.getD i none).getD []

/-- Header sentinels for the year column. -/
def headerYears : List (List Char) :=
  [("NDAA Year".toList), ("Column 1".toList), ("Column1".toList), []]

/-- Header sentinels for the section column. -/
def headerSections : List (List Char) :=
  [("NDAA Section".toList), ("Column2".toList), []]

/-- Header sentinels for the FRN-citation column. -/
def headerFrns : List (List Char) :=
  [("FRN Citation".toList), ("Column15".toList), ("Final Rule".toList)]

/-- The per-row body of parse_tracker.py `extract_final_rule_citations`:
`none` when the row is skipped (too few columns, header row, or no
final-rule citation), otherwise the emitted record. -/
def trackerRowResult (row : List (Option (List Char))) : Option TrackerRow :=
  if row.length < 17 then none
  else
    let ndaa_year0 := replaceAll (pyStrip (cellAt row 0)) ['\n'] [' ']
    let ndaa_section := replaceAll (pyStrip (cellAt row 1)) ['\n'] [' ']
    let para := pyStrip (cellAt row 2)
    let section_title := pyStrip (cellAt row 3)
    let status := pyStrip (cellAt row 4)
    let case_number := replaceAll (pyStrip (cellAt row 9)) ['\n'] ['\n']
    let final_rule_frn := pyStrip (cellAt row 14)
    let final_rule_date := pyStrip (cellAt row 15)
    let ndaa_year := replaceAll ndaa_year0 ("FY ".toList) ("FY".toList)
    if ndaa_year ∈ headerYears ∨ ndaa_section ∈ headerSections ∨
        final_rule_frn ∈ headerFrns then none
    else if final_rule_frn.isEmpty then none
    else some
      { ndaa_year := ndaa_year, ndaa_section := ndaa_section, paragraph := para,
        section_title := replaceAll section_title ['\n'] [' '], status := status,
        case_number := case_number, frn_citation := final_rule_frn,
        fr_date := final_rule_date }

/-- parse_tracker.py `extract_final_rule_citations`, over the flattened
list of table rows (the page/table nesting only concatenates rows). -/
def extract_final_rule_citations (rows : List (List (Option (List Char)))) :
    List TrackerRow :=
  rows.filterMap trackerRowResult

/- ── extract_dfars_sections_ndaa.py ────────────────────────────────── -/

/-- A `div.section` element, with the traversal results the extractor
reads off it: `sectnoId` is the `id` attribute of its
`div.sectno-reference` child (`hasSectno` false when that child is
missing, in which case `sectnoId` is ignored); `subject` is the text of
its `div.section-subject` child if present; `prevInstruction` is the
result of the backward sibling scan `_get_amendment_instruction`;
`rawContent` is the result of the child-text scan `_get_section_content`.
The two scans are recorded as fields because no claim concerns their
internals. -/
structure SecNode where
  hasSectno : Bool
  sectnoId : List Char
  subject : Option (List Char)
  prevInstruction : List Char
  rawContent : List Char
deriving DecidableEq, Repr

/-- A `p.amendment-part` candidate paragraph: `isAmendPart` is whether the
`p` carries the `amendment-part` class, `hasSubnum` whether it contains a
`span.amendment-part-subnumber`, `text` its `get_text` result. -/
structure ParaNode where
  isAmendPart : Bool
  hasSubnum : Bool
  text : List Char
deriving DecidableEq, Repr

/-- An HTML document is modelled as its parse-tree elements flattened in
document order; only the elements the extractor inspects are distinguished. -/
inductive HtmlItem where
  | sec (s : SecNode)
  | para (p : ParaNode)
  | otherNode
deriving DecidableEq, Repr

/-- Python `sec_id.replace("sectno-reference-", "").strip()`. -/
def secNum (s : SecNode) : List Char :=
  pyStrip (replaceAll s.sectnoId ("sectno-reference-".toList) [])

/-- Whether a section's subject marks it `[Amended]`
(`"[Amended]" in subject.get_text()`; false when the subject div is
missing). -/
def isAmendedSec (s : SecNode) : Bool :=
  match s.subject with
  | some t => containsSub ("[Amended]".toList) t
  | none => false

/-- The `{"instruction": ..., "content": ...}` value stored by
`_collect_amended_section_instructions`. -/
structure AmendedInfo where
  instruction : List Char
  content : List Char
deriving DecidableEq, Repr

/-- The forward scan over `find_all_next("p", class_="amendment-part")`:
sub-numbered paragraphs are appended to the sub-instruction list, the
first non-sub-numbered (and still-unset, i.e. empty `main`) paragraph
becomes the main instruction, and a further non-sub-numbered paragraph
once `main` is non-empty breaks the loop. -/
def collectGo : List HtmlItem → List Char → List (List Char) →
    List Char × List (List Char)
  | [], main, subs => (main, subs)
  | HtmlItem.para p :: t, main, subs =>
    if p.isAmendPart then
      if p.hasSubnum then collectGo t main (subs ++ [p.text])
      else if main.isEmpty then collectGo t p.text subs
      else (main, subs)
    else collectGo t main subs
  | _ :: t, main, subs => collectGo t main subs

/-- The dict value built for one `[Amended]` section from the items after
it (`"\n".join(subs) if subs else ""`). -/
def amendedVal (post : List HtmlItem) : AmendedInfo :=
  let r := collectGo post [] []
  { instruction := r.1, content := if r.2.isEmpty then [] else joinNL r.2 }

/-- Functional update of the result dict (later writes shadow earlier
ones, like Python dict assignment). -/
def updateMap (f : List Char → Option AmendedInfo) (k : List Char) (v : AmendedInfo) :
    List Char → Option AmendedInfo :=
  fun x => if x = k then some v else f x

/-- Whether `_collect_amended_section_instructions` processes this section:
subject marked `[Amended]`, a sectno-reference child present, and a
non-empty section number. -/
def collectsSec (s : SecNode) : Bool :=
  isAmendedSec s && s.hasSectno && !(secNum s).isEmpty

/-- The fold of `_collect_amended_section_instructions` over the document:
for each qualifying section, scan the items after it. -/
def collectAmendedGo : List HtmlItem → (List Char → Option AmendedInfo) →
    List Char → Option AmendedInfo
  | [], acc => acc
  | HtmlItem.sec s :: t, acc =>
    if collectsSec s then collectAmendedGo t (updateMap acc (secNum s) (amendedVal t))
    else collectAmendedGo t acc
  | _ :: t, acc => collectAmendedGo t acc

/-- extract_dfars_sections_ndaa.py `_collect_amended_section_instructions`
(leading underscore dropped for Lean). -/
def collect_amended_section_instructions (doc : List HtmlItem) :
    List Char → Option AmendedInfo :=
  collectAmendedGo doc (fun _ => none)

/-- One record of `extract_dfars_sections`. -/
structure AmendmentRec where
  affected_dfars_section : List Char
  amendment_instruction : List Char
  content : List Char
deriving DecidableEq, Repr

/-- The record `extract_dfars_sections` emits for one (not yet seen)
section: when its content is empty or `[Amended]` and the collected map
has an entry for its number, the collected instruction (when non-empty)
and content replace the backward-scan instruction and raw content. -/
def extractRecord (amap : List Char → Option AmendedInfo) (s : SecNode) :
    AmendmentRec :=
  let num := secNum s
  let instr0 := s.prevInstruction
  let content0 := s.rawContent
  let rec1 :=
    if content0.isEmpty ∨ pyStrip content0 = ("[Amended]".toList) then
      match amap num with
      | some info =>
        ((if !info.instruction.isEmpty then info.instruction else instr0),
         info.content)
      | none => (instr0, content0)
    else (instr0, content0)
  { affected_dfars_section := num, amendment_instruction := rec1.1,
    content := rec1.2 }

/-- The main loop of `extract_dfars_sections`: walk the `div.section`
elements in document order with a `seen_sections` set; for each new
section emit `extractRecord`.  Returns `(seen_sections, results)`. -/
def extractGo (amap : List Char → Option AmendedInfo) :
    List HtmlItem → List (List Char) → List AmendmentRec →
    List (List Char) × List AmendmentRec
  | [], seen, acc => (seen, acc)
  | HtmlItem.sec s :: t, seen, acc =>
    if s.hasSectno then
      let num := secNum s
      if num.isEmpty ∨ num ∈ seen then extractGo amap t seen acc
      else extractGo amap t (num :: seen) (acc ++ [extractRecord amap s])
    else extractGo amap t seen acc
  | _ :: t, seen, acc => extractGo amap t seen acc

/-- The regex fallback of `extract_dfars_sections`: over every
`p.amendment-part`, each section number the pattern
`[Ss]ection\s+(\d{3}\.\d[\w\-\.]*)` finds in its text
(`findSectionRefs`, abstracted since no claim concerns the pattern
itself) that is not yet seen is emitted with the paragraph text as
instruction and empty content. -/
def fallbackGo (findSectionRefs : List Char → List (List Char)) :
    List HtmlItem → List (List Char) → List AmendmentRec → List AmendmentRec
  | [], _, acc => acc
  | HtmlItem.para p :: t, seen, acc =>
    if p.isAmendPart then
      let step := (findSectionRefs p.text).foldl
        (fun (pr : List (List Char) × List AmendmentRec) m =>
          if m ∈ pr.1 then pr
          else (m :: pr.1,
                pr.2 ++ [{ affected_dfars_section := m,
                           amendment_instruction := p.text, content := [] }]))
        (seen, acc)
      fallbackGo findSectionRefs t step.1 step.2
    else fallbackGo findSectionRefs t seen acc
  | _ :: t, seen, acc => fallbackGo findSectionRefs t seen acc

/-- extract_dfars_sections_ndaa.py `extract_dfars_sections` for one parsed
document. -/
def extract_dfars_sections (findSectionRefs : List Char → List (List Char))
    (doc : List HtmlItem) : List AmendmentRec :=
  let amap := collect_amended_section_instructions doc
  let r := extractGo amap doc [] []
  if r.2.isEmpty then fallbackGo findSectionRefs doc r.1 [] else r.2

/-- An input row of extract_dfars_sections_ndaa.py `main`
(`pd.read_csv(..., dtype=str).fillna("")`, so cells are plain strings). -/
structure ExtractCsvRow where
  fr_body_html_url : List Char
  ndaa_year : List Char
  ndaa_section : List Char
  case_number : List Char
deriving DecidableEq, Repr

/-- A row of the per-section detail CSV
(`ndaa_final_rule_dfars_changes.csv`). -/
structure DetailRow where
  ndaa_year : List Char
  ndaa_section : List Char
  case_number : List Char
  document_id : List Char
  affected_dfars_section : List Char
  amendment_instruction : List Char
  content : List Char
deriving DecidableEq, Repr

/-- The detail rows contributed by one tracker row in
extract_dfars_sections_ndaa.py `main`: split the URL cell, derive each
document id, look the document up in the HTML cache
(`htmlDir : doc_id → parsed document`, `none` = missing file, recorded as
skipped), extract its sections and append one detail row per section.
The summary `affected_dfars_sections` column is not modelled (no claim
concerns it). -/
def rowDetails (findSectionRefs : List Char → List (List Char))
    (htmlDir : List Char → Option (List HtmlItem)) (r : ExtractCsvRow) :
    List DetailRow :=
  (cleanSplit r.fr_body_html_url).foldl
    (fun acc url =>
      match extract_doc_id_from_url url with
      | none => acc
      | some did =>
        match htmlDir did with
        | none => acc
        | some doc =>
          acc ++ (extract_dfars_sections findSectionRefs doc).map (fun s =>
            { ndaa_year := r.ndaa_year, ndaa_section := r.ndaa_section,
              case_number := r.case_number, document_id := did,
              affected_dfars_section := s.affected_dfars_section,
              amendment_instruction := s.amendment_instruction,
              content := s.content }))
    []

/-- The aggregated detail table (`all_details`) of
extract_dfars_sections_ndaa.py `main`. -/
def mainDetails (findSectionRefs : List Char → List (List Char))
    (htmlDir : List Char → Option (List HtmlItem)) (rows : List ExtractCsvRow) :
    List DetailRow :=
  rows.foldl (fun acc r => acc ++ rowDetails findSectionRefs htmlDir r) []

/- ── Spec-side definitions used in the claim statements ───────────── -/

/-- The date formats the spec names, with the field widths of CPython
`strptime`: `s` decomposes as `month "/" day "/" year` with a 1–2 digit
month, a day that is either a 1–2 digit run or a space followed by one
digit 1–9 (space-padded `%d`), and a year field of exactly 2 digits for
`MM/DD/YY` (`fourDigitYear = false`, with the strptime century mapping)
or exactly 4 digits for `MM/DD/YYYY` (`fourDigitYear = true`), denoting
a valid calendar date `(y, m, d)`. -/
def SpecValidDate (fourDigitYear : Bool) (s : List Char) (y m d : Nat) : Prop :=
  ∃ mS dS yS : List Char,
    s = mS ++ '/' :: (dS ++ '/' :: yS) ∧
    (∀ c ∈ mS, c.isDigit = true) ∧ 1 ≤ mS.length ∧ mS.length ≤ 2 ∧
    (((∀ c ∈ dS, c.isDigit = true) ∧ 1 ≤ dS.length ∧ dS.length ≤ 2 ∧
        d = digitsVal dS) ∨
      (∃ c ∈ nonzeroDigits, dS = [' ', c] ∧ d = digitsVal [c])) ∧
    (∀ c ∈ yS, c.isDigit = true) ∧
    yS.length = (if fourDigitYear then 4 else 2) ∧
    m = digitsVal mS ∧
    y = (if fourDigitYear then digitsVal yS else yyToYear (digitsVal yS)) ∧
    1 ≤ m ∧ m ≤ 12 ∧ 1 ≤ y ∧ y ≤ 9999 ∧ 1 ≤ d ∧ d ≤ daysInMonth y m

/-- Spec-side date padding: the dates, extended to `n` entries by
repeating the last known date. -/
def padSpec (n : Nat) (dates : List (List Char)) : List (List Char) :=
  dates ++ List.replicate (n - dates.length) (dates.getLastD [])

/-- The guard under which the Citation Resolver row loop is total: a row
whose citation cell is non-blank must have at least one non-blank date
line (a pandas NaN date cell stringifies to `"nan"`, which is non-blank). -/
def resolverRowSafe (r : Option (List Char) × Option (List Char)) : Prop :=
  match r.1 with
  | none => True
  | some c =>
    (pyStrip c).isEmpty = true ∨
    cleanSplit (match r.2 with | none => ("nan".toList) | some d => pyStrip d) ≠ []

/-- Spec-side resolved `(title, url)` cell pair for a citation list and a
(padded) date list: each citation is fetched independently with its own
date and the results are rejoined with newlines in the same order. -/
def resolvedCells (fetch : List Char → List Char → Option (List Char × List Char))
    (cits dates2 : List (List Char)) : List Char × List Char :=
  (joinNL ((cits.zip dates2).map (fun cd =>
      match fetch cd.1 cd.2 with
      | some tu => tu.1
      | none => ("Not Found".toList))),
   joinNL ((cits.zip dates2).map (fun cd =>
      match fetch cd.1 cd.2 with
      | some tu => tu.2
      | none => [])))

/-- A pattern with no non-trivial border (no proper prefix equal to a
suffix of the same length); `.html` is such a pattern. -/
def borderFree (p : List Char) : Prop :=
  ∀ k, k < p.length → 0 < k → p.take k ≠ p.drop (p.length - k)

/-- The `p.amendment-part` paragraphs among a list of document items, in
document order (what `find_all_next("p", class_="amendment-part")`
iterates over, for items after a given node). -/
def amendParts (items : List HtmlItem) : List ParaNode :=
  items.filterMap (fun it =>
    match it with
    | HtmlItem.para p => if p.isAmendPart then some p else none
    | _ => none)

/-- Spec-side main instruction: the text of the first amendment paragraph
without a sub-number among the items after the section ("" if none). -/
def scanMainText (items : List HtmlItem) : List Char :=
  match (amendParts items).dropWhile (·.hasSubnum) with
  | [] => []
  | m :: _ => m.text

/-- Spec-side sub-instructions: the texts of the sub-numbered amendment
paragraphs before the second paragraph without a sub-number (the scan
stops at the first non-matching paragraph after the first mismatch). -/
def scanSubs (items : List HtmlItem) : List (List Char) :=
  let ps := amendParts items
  let a := ps.takeWhile (·.hasSubnum)
  match ps.dropWhile (·.hasSubnum) with
  | [] => a.map (·.text)
  | _ :: b => (a ++ b.takeWhile (·.hasSubnum)).map (·.text)

end Dfars

namespace Dfars

/- ── Generic list/string lemmas ───────────────────────────────────── -/

theorem takeWhile_append_stop {α : Type} (p : α → Bool) (xs : List α) (y : α)
    (ys : List α) (hx : ∀ x ∈ xs, p x = true) (hy : p y = false) :
    (xs ++ y :: ys).takeWhile p = xs := by
  induction xs with
  | nil => simp [List.takeWhile_cons, hy]
  | cons a t ih =>
    have ha : p a = true := hx a (by simp)
    simp only [List.cons_append, List.takeWhile_cons, ha, if_pos]
    rw [ih (fun x hx2 => hx x (by simp [hx2]))]

theorem dropWhile_append_stop {α : Type} (p : α → Bool) (xs : List α) (y : α)
    (ys : List α) (hx : ∀ x ∈ xs, p x = true) (hy : p y = false) :
    (xs ++ y :: ys).dropWhile p = y :: ys := by
  induction xs with
  | nil => simp [List.dropWhile_cons, hy]
  | cons a t ih =>
    have ha : p a = true := hx a (by simp)
    simp only [List.cons_append, List.dropWhile_cons, ha, if_pos]
    exact ih (fun x hx2 => hx x (by simp [hx2]))

theorem takeWhile_all {α : Type} (p : α → Bool) (xs : List α)
    (hx : ∀ x ∈ xs, p x = true) : xs.takeWhile p = xs :=
  List.takeWhile_eq_self_iff.mpr hx

theorem dropWhile_all {α : Type} (p : α → Bool) (xs : List α)
    (hx : ∀ x ∈ xs, p x = true) : xs.dropWhile p = [] := by
  induction xs with
  | nil => rfl
  | cons a t ih =>
    simp only [List.dropWhile_cons, hx a (by simp), if_pos]
    exact ih (fun x hx2 => hx x (by simp [hx2]))

theorem replaceAll_nil (pat rep : List Char) : replaceAll [] pat rep = [] := by
  unfold replaceAll goRep
  split <;> rfl

/- ── Claim C9 ─────────────────────────────────────────────────────── -/

/-- Claim C9: the fiscal-year parser `parse_fy` maps `FY24` to 2024 and
`FY10` to 2010; for every fiscal-year token `FY` followed by a digit
string whose value is at least 100, the number passes through unchanged
(e.g. `FY2024` yields 2024); and a token that does not begin with `FY`
followed by a digit yields no result. -/
theorem parse_fy_spec :
    parse_fy ("FY24".toList) = some 2024 ∧
    parse_fy ("FY10".toList) = some 2010 ∧
    (∀ ds : List Char, ds ≠ [] → (∀ c ∈ ds, c.isDigit = true) →
      100 ≤ digitsVal ds → parse_fy ('F' :: 'Y' :: ds) = some (digitsVal ds)) ∧
    (∀ s : List Char, (parse_fy s).isSome = true →
      ∃ c rest, s = 'F' :: 'Y' :: c :: rest ∧ c.isDigit = true) := by
  refine ⟨by decide, by decide, ?_, ?_⟩
  · intro ds hne hdig h100
    simp only [parse_fy, takeWhile_all Char.isDigit ds hdig]
    rw [if_neg (by simpa [List.isEmpty_iff] using hne)]
    rw [if_neg (by omega)]
  · intro s hs
    unfold parse_fy at hs
    split at hs
    · next rest =>
      by_cases hr : (rest.takeWhile Char.isDigit).isEmpty = true
      · rw [if_pos hr] at hs; simp at hs
      · cases hrest : rest with
        | nil => subst hrest; simp at hr
        | cons c t =>
          subst hrest
          by_cases hc : c.isDigit = true
          · exact ⟨c, t, rfl, hc⟩
          · rw [List.takeWhile_cons, if_neg (by simp [hc])] at hr
            simp at hr
    · simp at hs

/-- Witness for C9: applies `parse_fy_spec` to the concrete token
`FY2024`, discharging the digit-string hypotheses there. -/
theorem parse_fy_spec_witness : parse_fy ("FY2024".toList) = some 2024 := by
  have h := parse_fy_spec.2.2.1 ("2024".toList) (by decide) (by decide) (by decide)
  simpa using h

/- ── strptime characterization (for C8) ───────────────────────────── -/

theorem slash_not_digit : ('/').isDigit = false := by decide

theorem parseDayField_some (r2 : List Char) (dv : Nat) (r3 : List Char)
    (h : parseDayField r2 = some (dv, r3)) :
    (∃ dS, r2 = dS ++ r3 ∧ (∀ c ∈ dS, c.isDigit = true) ∧
      1 ≤ dS.length ∧ dS.length ≤ 2 ∧ dv = digitsVal dS) ∨
    (∃ c ∈ nonzeroDigits, r2 = ' ' :: c :: r3 ∧ dv = digitsVal [c]) := by
  unfold parseDayField at h
  split at h
  · rename_i c r3x
    by_cases hc : c ∈ nonzeroDigits
    · rw [if_pos hc] at h
      injection h with hv
      rw [Prod.mk.injEq] at hv
      obtain ⟨hdv, hr3⟩ := hv
      subst hr3
      exact Or.inr ⟨c, hc, rfl, hdv.symm⟩
    · rw [if_neg hc] at h
      exact absurd h (by simp)
  · by_cases hlen : (r2.takeWhile Char.isDigit).length = 0 ∨
        2 < (r2.takeWhile Char.isDigit).length
    · rw [if_pos hlen] at h
      exact absurd h (by simp)
    · rw [if_neg hlen] at h
      injection h with hv
      rw [Prod.mk.injEq] at hv
      obtain ⟨hdv, hr3⟩ := hv
      push_neg at hlen
      refine Or.inl ⟨r2.takeWhile Char.isDigit, ?_,
        fun c hc => List.mem_takeWhile_imp hc, by omega, by omega, hdv.symm⟩
      rw [← hr3]
      exact (List.takeWhile_append_dropWhile Char.isDigit r2).symm

theorem parseDayField_run (dS ys : List Char) (hne : 1 ≤ dS.length)
    (hdig : ∀ c ∈ dS, c.isDigit = true) (hlen : dS.length ≤ 2) :
    parseDayField (dS ++ '/' :: ys) = some (digitsVal dS, '/' :: ys) := by
  rcases dS with _ | ⟨d0, dt⟩
  · simp at hne
  have hd0 : d0.isDigit = true := hdig d0 (by simp)
  have hsp : d0 ≠ ' ' := by
    intro he; rw [he] at hd0; exact absurd hd0 (by decide)
  rw [List.cons_append]
  unfold parseDayField
  split
  · rename_i c r3 heq
    exfalso
    injection heq with hh _
    exact hsp hh
  · rw [← List.cons_append,
      takeWhile_append_stop _ _ _ _ hdig slash_not_digit,
      dropWhile_append_stop _ _ _ _ hdig slash_not_digit]
    rw [if_neg (by push_neg; exact ⟨by simp, by simpa using hlen⟩)]

theorem parseDayField_space_eq (c : Char) (r3 : List Char) :
    parseDayField (' ' :: c :: r3) =
      (if c ∈ nonzeroDigits then some (digitsVal [c], r3) else none) := rfl

theorem strptimeMDY_iff (b : Bool) (s : List Char) (y m d : Nat) :
    strptimeMDY b s = some (y, m, d) ↔ SpecValidDate b s y m d := by
  constructor
  · intro h
    simp only [strptimeMDY] at h
    by_cases h1 : (s.takeWhile Char.isDigit).length = 0 ∨
        2 < (s.takeWhile Char.isDigit).length
    · rw [if_pos h1] at h; exact absurd h (by simp)
    rw [if_neg h1] at h
    split at h
    · rename_i r2 hdrop
      cases hday : parseDayField r2 with
      | none =>
        rw [hday] at h
        exact absurd h (by simp)
      | some pr =>
        obtain ⟨dv, r3⟩ := pr
        rw [hday] at h
        dsimp only at h
        split at h
        · rename_i r4
          by_cases h3 : (r4.takeWhile Char.isDigit).length ≠
              (if b = true then 4 else 2) ∨ r4.dropWhile Char.isDigit ≠ []
          · rw [if_pos h3] at h; exact absurd h (by simp)
          rw [if_neg h3] at h
          by_cases h4 : digitsVal (s.takeWhile Char.isDigit) = 0 ∨
              12 < digitsVal (s.takeWhile Char.isDigit) ∨
              (if b = true then digitsVal (r4.takeWhile Char.isDigit)
                else yyToYear (digitsVal (r4.takeWhile Char.isDigit))) = 0 ∨
              9999 < (if b = true then digitsVal (r4.takeWhile Char.isDigit)
                else yyToYear (digitsVal (r4.takeWhile Char.isDigit))) ∨
              dv = 0 ∨
              daysInMonth (if b = true then digitsVal (r4.takeWhile Char.isDigit)
                else yyToYear (digitsVal (r4.takeWhile Char.isDigit)))
                (digitsVal (s.takeWhile Char.isDigit)) < dv
          · rw [if_pos h4] at h; exact absurd h (by simp)
          rw [if_neg h4] at h
          injection h with hv
          rw [Prod.mk.injEq, Prod.mk.injEq] at hv
          obtain ⟨hy0, hm0, hd0⟩ := hv
          subst hy0; subst hm0; subst hd0
          push_neg at h1 h3 h4
          obtain ⟨h3a, h3b⟩ := h3
          have hs2 : s = (s.takeWhile Char.isDigit) ++ '/' :: r2 := by
            conv_lhs => rw [← List.takeWhile_append_dropWhile Char.isDigit s]
            rw [hdrop]
          have hr4eq : r4 = r4.takeWhile Char.isDigit := by
            conv_lhs => rw [← List.takeWhile_append_dropWhile Char.isDigit r4]
            rw [h3b, List.append_nil]
          rcases parseDayField_some r2 dv ('/' :: r4) hday with
            ⟨dS, hr2eq, hdig2, hl1, hl2, hdval⟩ | ⟨c, hcmem, hr2eq, hdval⟩
          · refine ⟨s.takeWhile Char.isDigit, dS, r4.takeWhile Char.isDigit,
              ?_, fun c hc => List.mem_takeWhile_imp hc, by omega, by omega,
              Or.inl ⟨hdig2, hl1, hl2, hdval⟩,
              fun c hc => List.mem_takeWhile_imp hc, h3a,
              rfl, rfl, by omega, by omega, by omega, by omega, by omega,
              by omega⟩
            exact hs2.trans
              (congrArg (fun t => (s.takeWhile Char.isDigit) ++ '/' :: t)
                (hr2eq.trans (congrArg (fun t => dS ++ '/' :: t) hr4eq)))
          · refine ⟨s.takeWhile Char.isDigit, [' ', c], r4.takeWhile Char.isDigit,
              ?_, fun c hc => List.mem_takeWhile_imp hc, by omega, by omega,
              Or.inr ⟨c, hcmem, rfl, hdval⟩,
              fun c hc => List.mem_takeWhile_imp hc, h3a,
              rfl, rfl, by omega, by omega, by omega, by omega, by omega,
              by omega⟩
            exact hs2.trans
              (congrArg (fun t => (s.takeWhile Char.isDigit) ++ '/' :: t)
                (hr2eq.trans (congrArg (fun t => ' ' :: c :: '/' :: t) hr4eq)))
        · exact absurd h (by simp)
    · exact absurd h (by simp)
  · rintro ⟨mS, dS, yS, hs, hmd, h1m, h2m, hday, hyd, hylen, hm, hy,
      hm1, hm12, hy1, hy9999, hd1, hdm⟩
    subst hs; subst hm; subst hy
    have e1 : ((mS ++ '/' :: (dS ++ '/' :: yS)).takeWhile Char.isDigit) = mS :=
      takeWhile_append_stop _ _ _ _ hmd slash_not_digit
    have e2 : ((mS ++ '/' :: (dS ++ '/' :: yS)).dropWhile Char.isDigit) =
        '/' :: (dS ++ '/' :: yS) :=
      dropWhile_append_stop _ _ _ _ hmd slash_not_digit
    have e5 : (yS.takeWhile Char.isDigit) = yS := takeWhile_all _ _ hyd
    have e6 : (yS.dropWhile Char.isDigit) = [] := dropWhile_all _ _ hyd
    have hpd : parseDayField (dS ++ '/' :: yS) = some (d, '/' :: yS) := by
      rcases hday with ⟨hdig2, hl1, hl2, hdv⟩ | ⟨c, hcmem, hdSeq, hdv⟩
      · rw [hdv]
        exact parseDayField_run dS yS hl1 hdig2 hl2
      · subst hdSeq
        rw [hdv, show (([' ', c] ++ '/' :: yS) : List Char) =
          ' ' :: c :: ('/' :: yS) from rfl, parseDayField_space_eq, if_pos hcmem]
    simp only [strptimeMDY, e1, e2]
    rw [if_neg (by omega)]
    simp only [hpd, e5, e6]
    rw [if_neg (by push_neg; exact ⟨hylen, rfl⟩)]
    rw [if_neg (by omega)]

/- ── Claim C5 ─────────────────────────────────────────────────────── -/

theorem runDownloads_all_cached (net : List Char → Option (List Char)) :
    ∀ (L : List (List Char × List Char)) (fs : List Char → Option Nat),
      (∀ pr ∈ L, ∃ n, fs pr.2 = some n ∧ 0 < n) →
      runDownloads net L fs = (L.length, 0, 0, fs) := by
  intro L
  induction L with
  | nil => intro fs _; rfl
  | cons pr t ih =>
    intro fs h
    obtain ⟨n, hfs, hn⟩ := h pr (by simp)
    obtain ⟨url, fp⟩ := pr
    simp only [runDownloads, hfs, hn, if_pos]
    rw [ih fs (fun q hq => h q (by simp [hq]))]
    simp

/-- Claim C5: re-running the Document Fetcher when every target file of
the deduplicated download list is already present and non-empty performs
zero network requests and reports 100% success (every file counted as a
success, zero failures). -/
theorem fetch_idempotent_when_cached :
    ∀ (net : List Char → Option (List Char)) (cells : List (Option (List Char)))
      (fs : List Char → Option Nat),
      (∀ pr ∈ buildDownloadList cells, ∃ n, fs pr.2 = some n ∧ 0 < n) →
      (runDownloads net (buildDownloadList cells) fs).2.2.1 = 0 ∧
      (runDownloads net (buildDownloadList cells) fs).1 =
        (buildDownloadList cells).length ∧
      (runDownloads net (buildDownloadList cells) fs).2.1 = 0 := by
  intro net cells fs h
  rw [runDownloads_all_cached net (buildDownloadList cells) fs h]
  exact ⟨rfl, rfl, rfl⟩

/-- Witness for C5: applies `fetch_idempotent_when_cached` to a concrete
URL column and a file system on which every path is a non-empty file. -/
theorem fetch_idempotent_when_cached_witness :
    (runDownloads (fun _ => none)
      (buildDownloadList [some (("https://www.federalregister.gov/documents/full_text/html/2024/06/27/2024-13863.html").toList)])
      (fun _ => some 1)).2.2.1 = 0 ∧
    (runDownloads (fun _ => none)
      (buildDownloadList [some (("https://www.federalregister.gov/documents/full_text/html/2024/06/27/2024-13863.html").toList)])
      (fun _ => some 1)).1 =
      (buildDownloadList [some (("https://www.federalregister.gov/documents/full_text/html/2024/06/27/2024-13863.html").toList)]).length ∧
    (runDownloads (fun _ => none)
      (buildDownloadList [some (("https://www.federalregister.gov/documents/full_text/html/2024/06/27/2024-13863.html").toList)])
      (fun _ => some 1)).2.1 = 0 :=
  fetch_idempotent_when_cached _ _ _ (fun _ _ => ⟨1, rfl, Nat.one_pos⟩)

/- ── Claim C6 ─────────────────────────────────────────────────────── -/

theorem goRep_append_pat (ext rep : List Char) (hne : ext ≠ [])
    (hbf : borderFree ext) :
    ∀ (id : List Char) (fuel : Nat), ¬ ext <:+: id →
      (id ++ ext).length ≤ fuel → goRep ext rep fuel (id ++ ext) = id ++ rep := by
  intro id
  induction id with
  | nil =>
    intro fuel _ hfuel
    simp only [List.nil_append] at hfuel ⊢
    cases ext with
    | nil => exact absurd rfl hne
    | cons e et =>
      rcases fuel with _ | f
      · exfalso; simp at hfuel
      have hp : (e :: et).isPrefixOf (e :: et) = true :=
        List.isPrefixOf_iff_prefix.mpr (List.prefix_refl _)
      simp only [goRep, hp, if_pos]
      rw [List.drop_length]
      simp [goRep]
  | cons c id' ih =>
    intro fuel hinf hfuel
    have hlen : ((c :: id') ++ ext).length = id'.length + ext.length + 1 := by
      simp
    obtain ⟨f, rfl⟩ : ∃ f, fuel = f + 1 := ⟨fuel - 1, by omega⟩
    rw [List.cons_append]
    have hpre : ¬ (ext <+: (c :: id') ++ ext) := by
      intro hp
      rcases le_or_lt ext.length (c :: id').length with hle | hlt
      · have htk : ext = ((c :: id') ++ ext).take ext.length :=
          List.prefix_iff_eq_take.mp hp
        rw [List.take_append_eq_append_take, Nat.sub_eq_zero_of_le hle,
          List.take_zero, List.append_nil] at htk
        have hpr : ext <+: (c :: id') := htk ▸ List.take_prefix _ _
        obtain ⟨tl, htl⟩ := hpr
        exact hinf ⟨[], tl, by simpa using htl⟩
      · have htake : ext = (c :: id') ++ ext.take (ext.length - (c :: id').length) := by
          have h0 := List.prefix_iff_eq_take.mp hp
          rw [List.take_append_eq_append_take, List.take_of_length_le (by omega)] at h0
          exact h0
        have hdropeq : ext.drop (c :: id').length =
            ext.take (ext.length - (c :: id').length) := by
          conv_lhs => rw [htake]
          exact List.drop_left _ _
        have hcons : (c :: id').length = id'.length + 1 := by simp
        have hkpos : 0 < ext.length - (c :: id').length := by omega
        have hklt : ext.length - (c :: id').length < ext.length := by omega
        have hb := hbf (ext.length - (c :: id').length) hklt hkpos
        have hlen2 : (c :: id').length =
            ext.length - (ext.length - (c :: id').length) := by omega
        rw [← hlen2] at hb
        exact hb hdropeq.symm
    have hnp : ext.isPrefixOf (c :: (id' ++ ext)) = false := by
      rw [← List.cons_append]
      exact Bool.eq_false_iff.mpr
        (fun hq => hpre ( List.isPrefixOf_iff_prefix.mp hq))
    simp only [goRep, hnp, Bool.false_eq_true, if_false]
    rw [ih f (fun hin => hinf (List.infix_cons hin))
      (by rw [hlen] at hfuel; simp; omega)]
    rw [List.cons_append]

theorem replaceAll_append_ext (ext rep id : List Char) (hne : ext ≠ [])
    (hbf : borderFree ext) (hinf : ¬ ext <:+: id) :
    replaceAll (id ++ ext) ext rep = id ++ rep := by
  unfold replaceAll
  rw [if_neg (by simpa [List.isEmpty_iff] using hne)]
  exact goRep_append_pat ext rep hne hbf id (id ++ ext).length hinf (le_refl _)

theorem lastSeg_ne_nil_rstrip (p : List Char) (h : lastSeg p ≠ []) :
    rstripSlash p = p := by
  unfold lastSeg at h
  unfold rstripSlash
  rcases hr : p.reverse with _ | ⟨c, t⟩
  · exfalso; rw [hr] at h; simp at h
  · rw [hr] at h
    have hc : ¬ (c = '/') := by
      intro hcc
      rw [List.takeWhile_cons, if_neg (by simp [hcc])] at h
      simp at h
    rw [List.dropWhile_cons, if_neg (by simp [hc]), ← hr, List.reverse_reverse]

theorem urlPath_nil : urlPath [] = [] := by decide

/-- Claim C6: for every document URL — a URL whose path's last segment is
a document id followed by `.html`, the id non-empty and not itself
containing `.html` — the Document Fetcher's cache filename and the Section
Extractor's document id agree: `url_to_filename url` equals
`extract_doc_id_from_url url` followed by `.html`. -/
theorem doc_id_filename_agree :
    ∀ url id : List Char,
      lastSeg (urlPath (pyStrip url)) = id ++ (".html".toList) →
      id ≠ [] → ¬ ((".html".toList) <:+: id) →
      extract_doc_id_from_url url = some id ∧
      url_to_filename url = id ++ (".html".toList) := by
  intro url id hseg hid hinf
  have hbf : borderFree (".html".toList) := by unfold borderFree; decide
  have hsegne : lastSeg (urlPath (pyStrip url)) ≠ [] := by
    rw [hseg]; simp
  have hu : ¬ (pyStrip url).isEmpty = true := by
    intro hemp
    rw [List.isEmpty_iff] at hemp
    rw [hemp, urlPath_nil] at hseg
    simp only [lastSeg] at hseg
    simp at hseg
  constructor
  · simp only [extract_doc_id_from_url]
    rw [if_neg hu, lastSeg_ne_nil_rstrip _ hsegne, hseg,
      replaceAll_append_ext _ _ _ (by decide) hbf hinf, List.append_nil,
      if_neg (by simpa [List.isEmpty_iff] using hid)]
  · unfold url_to_filename
    exact hseg

/-- Witness for C6: applies `doc_id_filename_agree` to the concrete
Federal Register URL of the claim, whose filename is `2024-13863.html`
and whose document id is `2024-13863`. -/
theorem doc_id_filename_agree_witness :
    extract_doc_id_from_url
      (("https://www.federalregister.gov/documents/full_text/html/2024/06/27/2024-13863.html").toList) =
      some ("2024-13863".toList) ∧
    url_to_filename
      (("https://www.federalregister.gov/documents/full_text/html/2024/06/27/2024-13863.html").toList) =
      ("2024-13863".toList) ++ (".html".toList) :=
  doc_id_filename_agree _ ("2024-13863".toList) (by decide) (by decide) (by decide)

/- ── Claims C1 and C7: the Citation Resolver row loop ─────────────── -/

theorem padDatesGo_ok (n : Nat) :
    ∀ (fuel : Nat) (dates : List (List Char)), dates ≠ [] →
      n - dates.length ≤ fuel →
      padDatesGo n fuel dates =
        .ok (dates ++ List.replicate (n - dates.length) (dates.getLastD [])) := by
  intro fuel
  induction fuel with
  | zero =>
    intro dates _ hle
    have h0 : n - dates.length = 0 := by omega
    rw [h0]
    simp [padDatesGo]
  | succ f ih =>
    intro dates hne hle
    by_cases hlt : dates.length < n
    · obtain ⟨x, hx⟩ : ∃ x, dates.getLast? = some x := by
        cases hgl : dates.getLast? with
        | none => exact absurd (List.getLast?_eq_none_iff.mp hgl) hne
        | some x => exact ⟨x, rfl⟩
      simp only [padDatesGo, if_pos hlt, hx]
      rw [ih (dates ++ [x]) (by simp) (by simp; omega)]
      have hgl2 : (dates ++ [x]).getLastD ([] : List Char) = x :=
        List.getLastD_concat _ _ _
      have hgl1 : dates.getLastD ([] : List Char) = x := by
        rw [List.getLastD_eq_getLast?, hx]
        rfl
      rw [hgl2, hgl1, List.append_assoc]
      have hcnt : (dates ++ [x]).length = dates.length + 1 := by simp
      rw [hcnt]
      have hsucc : n - dates.length = (n - (dates.length + 1)) + 1 := by omega
      rw [hsucc, List.replicate_succ]
      rfl
    · simp only [padDatesGo, if_neg hlt]
      have h0 : n - dates.length = 0 := by omega
      rw [h0]
      simp

theorem padDates_ok (nCits : Nat) (dates : List (List Char)) (hne : dates ≠ []) :
    padDates nCits dates = .ok (padSpec nCits dates) := by
  unfold padDates padSpec
  exact padDatesGo_ok nCits nCits dates hne (by omega)

theorem processRow_eq_of_dates
    (fetch : List Char → List Char → Option (List Char × List Char))
    (c : List Char) (dOpt : Option (List Char))
    (hemp : ¬ (pyStrip c).isEmpty = true)
    (hdne : cleanSplit (match dOpt with
      | none => ("nan".toList) | some d0 => pyStrip d0) ≠ []) :
    processRow fetch (some c) dOpt =
      .ok (resolvedCells fetch (cleanSplit (pyStrip c))
        (padSpec (cleanSplit (pyStrip c)).length
          (cleanSplit (match dOpt with
            | none => ("nan".toList) | some d0 => pyStrip d0)))) := by
  cases dOpt with
  | none =>
    simp only at hdne
    simp only [processRow]
    rw [if_neg hemp, padDates_ok _ _ hdne]
    dsimp only
    unfold resolvedCells
    congr 1
    congr 1
    · rw [List.map_map]
      exact congrArg joinNL (List.map_congr_left (fun cd _ => by
        dsimp only [Function.comp]
        cases fetch cd.1 cd.2 <;> rfl))
    · rw [List.map_map]
      exact congrArg joinNL (List.map_congr_left (fun cd _ => by
        dsimp only [Function.comp]
        cases fetch cd.1 cd.2 <;> rfl))
  | some d0 =>
    simp only at hdne
    simp only [processRow]
    rw [if_neg hemp, padDates_ok _ _ hdne]
    dsimp only
    unfold resolvedCells
    congr 1
    congr 1
    · rw [List.map_map]
      exact congrArg joinNL (List.map_congr_left (fun cd _ => by
        dsimp only [Function.comp]
        cases fetch cd.1 cd.2 <;> rfl))
    · rw [List.map_map]
      exact congrArg joinNL (List.map_congr_left (fun cd _ => by
        dsimp only [Function.comp]
        cases fetch cd.1 cd.2 <;> rfl))

theorem processRow_ok_of_safe
    (fetch : List Char → List Char → Option (List Char × List Char))
    (r : Option (List Char) × Option (List Char)) (h : resolverRowSafe r) :
    ∃ o, processRow fetch r.1 r.2 = .ok o := by
  obtain ⟨co, do_⟩ := r
  cases co with
  | none => exact ⟨([], []), rfl⟩
  | some c =>
    by_cases hemp : (pyStrip c).isEmpty = true
    · exact ⟨([], []), by simp only [processRow]; rw [if_pos hemp]⟩
    · cases do_ with
      | none =>
        exact ⟨_, processRow_eq_of_dates fetch c none hemp (by decide)⟩
      | some d0 =>
        have hdne : cleanSplit (pyStrip d0) ≠ [] := by
          simp only [resolverRowSafe] at h
          rcases h with h | h
          · exact absurd h hemp
          · exact h
        exact ⟨_, processRow_eq_of_dates fetch c (some d0) hemp (by
          simpa using hdne)⟩

/-- Claim C1 counterexample: a row whose citation cell is non-blank but
whose date cell is blank (only whitespace) raises an uncaught
`IndexError` (`dates[-1]` on the empty list) inside the per-row loop of
the Citation Resolver, refuting "for every input row no exception
propagates out of the per-row processing loop". -/
theorem resolver_row_loop_raises_on_blank_dates :
    rowLoop (fun _ _ => none)
      [(some ("88 FR 73238".toList), some (" ".toList))] = .error () := by
  rfl

/-- Claim C1, amended: in the Citation Resolver, the per-row loop
completes without an exception for every row list in which each row with
a non-blank citation cell has at least one non-blank date line (per-item
failures become sentinels); a row with a non-blank citation cell and a
blank date cell instead raises an uncaught IndexError. -/
theorem resolver_loop_total_of_guard :
    ∀ (fetch : List Char → List Char → Option (List Char × List Char))
      (rows : List (Option (List Char) × Option (List Char))),
      (∀ r ∈ rows, resolverRowSafe r) →
      ∃ out, rowLoop fetch rows = .ok out := by
  intro fetch rows
  induction rows with
  | nil => intro _; exact ⟨[], rfl⟩
  | cons r t ih =>
    intro h
    obtain ⟨o, ho⟩ := processRow_ok_of_safe fetch r (h r (by simp))
    obtain ⟨os, hos⟩ := ih (fun q hq => h q (by simp [hq]))
    refine ⟨o :: os, ?_⟩
    simp only [rowLoop, ho, hos]

/-- Witness for the amended C1: applies `resolver_loop_total_of_guard`
to a concrete one-row batch with a present date, discharging the guard
hypothesis there. -/
theorem resolver_loop_total_of_guard_witness :
    ∃ out, rowLoop (fun _ _ => none)
      [(some ("88 FR 73238".toList), some ("12/26/23".toList))] = .ok out :=
  resolver_loop_total_of_guard _ _ (by
    intro r hr
    rw [List.mem_singleton] at hr
    subst hr
    simp only [resolverRowSafe]
    exact Or.inr (by decide))

/-- Claim C7: for a row with a non-blank citation cell and at least one
date line, the newline-separated citations are resolved independently
(each through `fetch` with its own date), rejoined with newlines in the
same order, and each citation beyond the number of dates reuses the last
known date of the row (`padSpec`). -/
theorem citations_resolved_independently :
    ∀ (fetch : List Char → List Char → Option (List Char × List Char))
      (c d : List Char),
      ¬ (pyStrip c).isEmpty = true →
      cleanSplit (pyStrip d) ≠ [] →
      processRow fetch (some c) (some d) =
        .ok (resolvedCells fetch (cleanSplit (pyStrip c))
          (padSpec (cleanSplit (pyStrip c)).length (cleanSplit (pyStrip d)))) := by
  intro fetch c d hc hd
  exact processRow_eq_of_dates fetch c (some d) hc (by simpa using hd)

/-- Witness for C7: applies `citations_resolved_independently` to a
concrete two-citation row with a single date, discharging both
hypotheses there. -/
theorem citations_resolved_independently_witness :
    processRow (fun _ _ => none) (some ("88 FR 73238\n89 FR 1".toList))
      (some ("12/26/23".toList)) =
      .ok (resolvedCells (fun _ _ => none)
        (cleanSplit (pyStrip ("88 FR 73238\n89 FR 1".toList)))
        (padSpec (cleanSplit (pyStrip ("88 FR 73238\n89 FR 1".toList))).length
          (cleanSplit (pyStrip ("12/26/23".toList))))) :=
  citations_resolved_independently (fun _ _ => none) _ _ (by decide) (by decide)

/- ── Claim C3 ─────────────────────────────────────────────────────── -/

/-- Claim C3 counterexample: two tracker rows referencing the same
document URL make `main` parse the document once per row, so the
aggregated detail table carries the pair
`(document_id 2024-13863, section 225.7017)` twice — refuting "among all
detail rows carrying a document_id, each affected_dfars_section value
appears at most once". -/
theorem detail_rows_duplicate_doc_section :
    ((mainDetails (fun _ => [])
        (fun did => if did = ("2024-13863".toList) then
          some [HtmlItem.sec
            { hasSectno := true,
              sectnoId := ("sectno-reference-225.7017".toList), subject := none,
              prevInstruction := ("1. Add section 225.7017".toList),
              rawContent := ("New text.".toList) }] else none)
        [{ fr_body_html_url :=
             ("https://www.federalregister.gov/a/2024-13863.html".toList),
           ndaa_year := ("FY24".toList), ndaa_section := ("831".toList),
           case_number := ("D1".toList) },
         { fr_body_html_url :=
             ("https://www.federalregister.gov/a/2024-13863.html".toList),
           ndaa_year := ("FY23".toList), ndaa_section := ("832".toList),
           case_number := ("D2".toList) }]).countP
      (fun r => r.document_id == ("2024-13863".toList) &&
        r.affected_dfars_section == ("225.7017".toList))) = 2 := by
  decide

theorem extractGo_inv (amap : List Char → Option AmendedInfo) :
    ∀ (items : List HtmlItem) (seen : List (List Char)) (acc : List AmendmentRec),
      (∀ n ∈ acc.map (fun r => r.affected_dfars_section), n ∈ seen) →
      (acc.map (fun r => r.affected_dfars_section)).Nodup →
      ((extractGo amap items seen acc).2.map
        (fun r => r.affected_dfars_section)).Nodup ∧
      (∀ n ∈ (extractGo amap items seen acc).2.map
          (fun r => r.affected_dfars_section),
        n ∈ (extractGo amap items seen acc).1) := by
  intro items
  induction items with
  | nil => intro seen acc h1 h2; exact ⟨h2, h1⟩
  | cons it t ih =>
    intro seen acc h1 h2
    cases it with
    | sec s =>
      simp only [extractGo]
      by_cases hs : s.hasSectno = true
      · rw [if_pos hs]
        by_cases hnum : (secNum s).isEmpty = true ∨ secNum s ∈ seen
        · rw [if_pos hnum]
          exact ih seen acc h1 h2
        · rw [if_neg hnum]
          push_neg at hnum
          apply ih
          · intro n hn
            rw [List.map_append, List.mem_append] at hn
            rcases hn with hn | hn
            · exact List.mem_cons_of_mem _ (h1 n hn)
            · simp at hn
              rw [hn]
              exact List.mem_cons_self _ _
          · rw [List.map_append]
            rw [List.nodup_append_comm]
            simp only [List.map_cons, List.map_nil, List.singleton_append,
              List.nodup_cons]
            exact ⟨fun hmem => hnum.2 (h1 _ hmem), h2⟩
      · rw [if_neg hs]
        exact ih seen acc h1 h2
    | para p =>
      simp only [extractGo]
      exact ih seen acc h1 h2
    | otherNode =>
      simp only [extractGo]
      exact ih seen acc h1 h2

theorem fb_fold_inv (p : ParaNode) :
    ∀ (ms : List (List Char)) (pr : List (List Char) × List AmendmentRec),
      (∀ n ∈ pr.2.map (fun r => r.affected_dfars_section), n ∈ pr.1) →
      (pr.2.map (fun r => r.affected_dfars_section)).Nodup →
      (∀ n ∈ (ms.foldl (fun (pr : List (List Char) × List AmendmentRec) m =>
            if m ∈ pr.1 then pr
            else (m :: pr.1,
              pr.2 ++
                [{ affected_dfars_section := m,
                   amendment_instruction := p.text, content := [] }])) pr).2.map
          (fun r => r.affected_dfars_section),
        n ∈ (ms.foldl (fun (pr : List (List Char) × List AmendmentRec) m =>
            if m ∈ pr.1 then pr
            else (m :: pr.1,
              pr.2 ++
                [{ affected_dfars_section := m,
                   amendment_instruction := p.text, content := [] }])) pr).1) ∧
      ((ms.foldl (fun (pr : List (List Char) × List AmendmentRec) m =>
            if m ∈ pr.1 then pr
            else (m :: pr.1,
              pr.2 ++
                [{ affected_dfars_section := m,
                   amendment_instruction := p.text, content := [] }])) pr).2.map
        (fun r => r.affected_dfars_section)).Nodup := by
  intro ms
  induction ms with
  | nil => intro pr h1 h2; exact ⟨h1, h2⟩
  | cons m t ih =>
    intro pr h1 h2
    simp only [List.foldl_cons]
    by_cases hm : m ∈ pr.1
    · rw [if_pos hm]
      exact ih pr h1 h2
    · rw [if_neg hm]
      apply ih
      · intro n hn
        rw [List.map_append, List.mem_append] at hn
        rcases hn with hn | hn
        · exact List.mem_cons_of_mem _ (h1 n hn)
        · simp at hn
          rw [hn]
          exact List.mem_cons_self _ _
      · rw [List.map_append, List.nodup_append_comm]
        simp only [List.map_cons, List.map_nil, List.singleton_append,
          List.nodup_cons]
        exact ⟨fun hmem => hm (h1 _ hmem), h2⟩

theorem fallbackGo_inv (refs : List Char → List (List Char)) :
    ∀ (items : List HtmlItem) (seen : List (List Char)) (acc : List AmendmentRec),
      (∀ n ∈ acc.map (fun r => r.affected_dfars_section), n ∈ seen) →
      (acc.map (fun r => r.affected_dfars_section)).Nodup →
      ((fallbackGo refs items seen acc).map
        (fun r => r.affected_dfars_section)).Nodup := by
  intro items
  induction items with
  | nil => intro seen acc _ h2; exact h2
  | cons it t ih =>
    intro seen acc h1 h2
    cases it with
    | sec s =>
      simp only [fallbackGo]
      exact ih seen acc h1 h2
    | para p =>
      simp only [fallbackGo]
      by_cases hap : p.isAmendPart = true
      · rw [if_pos hap]
        obtain ⟨g1, g2⟩ := fb_fold_inv p (refs p.text) (seen, acc) h1 h2
        exact ih _ _ g1 g2
      · rw [if_neg hap]
        exact ih seen acc h1 h2
    | otherNode =>
      simp only [fallbackGo]
      exact ih seen acc h1 h2

/-- Claim C3, amended: within the output of a single document parse
(`extract_dfars_sections`), the `affected_dfars_section` values are
pairwise distinct (the `seen_sections` set keeps only the first
occurrence, in both the main loop and the regex fallback); across the
aggregated detail table a document referenced by several tracker rows
contributes its sections once per referencing row. -/
theorem extract_sections_nodup :
    ∀ (refs : List Char → List (List Char)) (doc : List HtmlItem),
      ((extract_dfars_sections refs doc).map
        (fun r => r.affected_dfars_section)).Nodup := by
  intro refs doc
  simp only [extract_dfars_sections]
  obtain ⟨g1, g2⟩ := extractGo_inv (collect_amended_section_instructions doc) doc
    [] [] (by simp) (by simp)
  by_cases hres : (extractGo (collect_amended_section_instructions doc)
      doc [] []).2.isEmpty = true
  · rw [if_pos hres]
    exact fallbackGo_inv refs doc _ [] (by simp) (by simp)
  · rw [if_neg hres]
    exact g1

/- ── Claim C2 ─────────────────────────────────────────────────────── -/

theorem amendParts_cons_para (p : ParaNode) (t : List HtmlItem) :
    amendParts (HtmlItem.para p :: t) =
      if p.isAmendPart then p :: amendParts t else amendParts t := by
  cases h : p.isAmendPart <;> simp [amendParts, List.filterMap_cons, h]

theorem amendParts_cons_sec (s : SecNode) (t : List HtmlItem) :
    amendParts (HtmlItem.sec s :: t) = amendParts t := rfl

theorem amendParts_cons_other (t : List HtmlItem) :
    amendParts (HtmlItem.otherNode :: t) = amendParts t := rfl

theorem collectGo_main_set :
    ∀ (items : List HtmlItem) (main : List Char) (subs : List (List Char)),
      main ≠ [] →
      collectGo items main subs =
        (main, subs ++ ((amendParts items).takeWhile
          (fun q => q.hasSubnum)).map (fun q => q.text)) := by
  intro items
  induction items with
  | nil => intro main subs _; simp [collectGo, amendParts]
  | cons it t ih =>
    intro main subs h
    cases it with
    | para p =>
      by_cases hap : p.isAmendPart = true
      · by_cases hsub : p.hasSubnum = true
        · simp only [collectGo, if_pos hap, if_pos hsub]
          rw [ih main (subs ++ [p.text]) h, amendParts_cons_para, if_pos hap,
            List.takeWhile_cons, if_pos (by simp [hsub])]
          simp [List.append_assoc]
        · simp only [collectGo, if_pos hap, if_neg hsub]
          rw [if_neg (by simpa [List.isEmpty_iff] using h),
            amendParts_cons_para, if_pos hap, List.takeWhile_cons,
            if_neg (by simp [hsub])]
          simp
      · simp only [collectGo, if_neg hap]
        rw [ih main subs h, amendParts_cons_para, if_neg hap]
    | sec s =>
      simp only [collectGo]
      rw [ih main subs h, amendParts_cons_sec]
    | otherNode =>
      simp only [collectGo]
      rw [ih main subs h, amendParts_cons_other]

theorem collectGo_scan :
    ∀ (items : List HtmlItem) (subs : List (List Char)),
      (∀ q ∈ amendParts items, q.text ≠ []) →
      collectGo items [] subs = (scanMainText items, subs ++ scanSubs items) := by
  intro items
  induction items with
  | nil => intro subs _; simp [collectGo, scanMainText, scanSubs, amendParts]
  | cons it t ih =>
    intro subs h
    cases it with
    | para p =>
      by_cases hap : p.isAmendPart = true
      · by_cases hsub : p.hasSubnum = true
        · simp only [collectGo, if_pos hap, if_pos hsub]
          rw [ih (subs ++ [p.text]) (fun q hq => h q (by
            rw [amendParts_cons_para, if_pos hap]
            exact List.mem_cons_of_mem _ hq))]
          have e1 : scanMainText (HtmlItem.para p :: t) = scanMainText t := by
            simp only [scanMainText]
            rw [amendParts_cons_para, if_pos hap, List.dropWhile_cons,
              if_pos (by simp [hsub])]
          have e2 : scanSubs (HtmlItem.para p :: t) = p.text :: scanSubs t := by
            simp only [scanSubs]
            rw [amendParts_cons_para, if_pos hap, List.takeWhile_cons,
              if_pos (by simp [hsub]), List.dropWhile_cons,
              if_pos (by simp [hsub])]
            cases hd : (amendParts t).dropWhile (fun q => q.hasSubnum) with
            | nil => simp
            | cons mm b => simp
          rw [e1, e2]
          simp [List.append_assoc]
        · simp only [collectGo, if_pos hap, if_neg hsub]
          rw [if_pos (by simp)]
          have hptext : p.text ≠ [] := h p (by
            rw [amendParts_cons_para, if_pos hap]
            exact List.mem_cons_self _ _)
          rw [collectGo_main_set t p.text subs hptext]
          have e1 : scanMainText (HtmlItem.para p :: t) = p.text := by
            simp only [scanMainText]
            rw [amendParts_cons_para, if_pos hap, List.dropWhile_cons,
              if_neg (by simp [hsub])]
          have e2 : scanSubs (HtmlItem.para p :: t) =
              ((amendParts t).takeWhile (fun q => q.hasSubnum)).map
                (fun q => q.text) := by
            simp only [scanSubs]
            rw [amendParts_cons_para, if_pos hap, List.takeWhile_cons,
              if_neg (by simp [hsub]), List.dropWhile_cons,
              if_neg (by simp [hsub])]
            simp
          rw [e1, e2]
      · simp only [collectGo, if_neg hap]
        rw [ih subs (fun q hq => h q (by
          rw [amendParts_cons_para, if_neg hap]; exact hq))]
        have e1 : scanMainText (HtmlItem.para p :: t) = scanMainText t := by
          simp only [scanMainText]
          rw [amendParts_cons_para, if_neg hap]
        have e2 : scanSubs (HtmlItem.para p :: t) = scanSubs t := by
          simp only [scanSubs]
          rw [amendParts_cons_para, if_neg hap]
        rw [e1, e2]
    | sec s =>
      simp only [collectGo]
      rw [ih subs (fun q hq => h q (by rw [amendParts_cons_sec]; exact hq))]
      have e1 : scanMainText (HtmlItem.sec s :: t) = scanMainText t := by
        simp only [scanMainText]
        rw [amendParts_cons_sec]
      have e2 : scanSubs (HtmlItem.sec s :: t) = scanSubs t := by
        simp only [scanSubs]
        rw [amendParts_cons_sec]
      rw [e1, e2]
    | otherNode =>
      simp only [collectGo]
      rw [ih subs (fun q hq => h q (by rw [amendParts_cons_other]; exact hq))]
      have e1 : scanMainText (HtmlItem.otherNode :: t) = scanMainText t := by
        simp only [scanMainText]
        rw [amendParts_cons_other]
      have e2 : scanSubs (HtmlItem.otherNode :: t) = scanSubs t := by
        simp only [scanSubs]
        rw [amendParts_cons_other]
      rw [e1, e2]

theorem collectAmendedGo_untouched :
    ∀ (items : List HtmlItem) (acc : List Char → Option AmendedInfo)
      (k : List Char),
      (∀ s, HtmlItem.sec s ∈ items → collectsSec s = true → secNum s ≠ k) →
      collectAmendedGo items acc k = acc k := by
  intro items
  induction items with
  | nil => intro acc k _; rfl
  | cons it t ih =>
    intro acc k h
    cases it with
    | sec s =>
      simp only [collectAmendedGo]
      by_cases hc : collectsSec s = true
      · rw [if_pos hc]
        rw [ih _ k (fun s2 hm hc2 => h s2 (List.mem_cons_of_mem _ hm) hc2)]
        unfold updateMap
        rw [if_neg (fun he => h s (List.mem_cons_self _ _) hc he.symm)]
      · rw [if_neg hc]
        exact ih _ k (fun s2 hm hc2 => h s2 (List.mem_cons_of_mem _ hm) hc2)
    | para p =>
      simp only [collectAmendedGo]
      exact ih _ k (fun s2 hm hc2 => h s2 (List.mem_cons_of_mem _ hm) hc2)
    | otherNode =>
      simp only [collectAmendedGo]
      exact ih _ k (fun s2 hm hc2 => h s2 (List.mem_cons_of_mem _ hm) hc2)

theorem collectAmended_at :
    ∀ (pre post : List HtmlItem) (s : SecNode)
      (acc : List Char → Option AmendedInfo),
      collectsSec s = true →
      (∀ s2, HtmlItem.sec s2 ∈ post → collectsSec s2 = true →
        secNum s2 ≠ secNum s) →
      collectAmendedGo (pre ++ HtmlItem.sec s :: post) acc (secNum s) =
        some (amendedVal post) := by
  intro pre
  induction pre with
  | nil =>
    intro post s acc hc hpost
    simp only [List.nil_append, collectAmendedGo, if_pos hc]
    rw [collectAmendedGo_untouched post _ (secNum s) hpost]
    unfold updateMap
    rw [if_pos rfl]
  | cons it pre' ih =>
    intro post s acc hc hpost
    cases it with
    | sec s2 =>
      simp only [List.cons_append, collectAmendedGo]
      by_cases hc2 : collectsSec s2 = true
      · rw [if_pos hc2]
        exact ih post s _ hc hpost
      · rw [if_neg hc2]
        exact ih post s _ hc hpost
    | para p =>
      simp only [List.cons_append, collectAmendedGo]
      exact ih post s _ hc hpost
    | otherNode =>
      simp only [List.cons_append, collectAmendedGo]
      exact ih post s _ hc hpost

theorem extractGo_mem_mono (amap : List Char → Option AmendedInfo) :
    ∀ (items : List HtmlItem) (seen : List (List Char))
      (acc : List AmendmentRec) (r : AmendmentRec), r ∈ acc →
      r ∈ (extractGo amap items seen acc).2 := by
  intro items
  induction items with
  | nil => intro seen acc r hr; exact hr
  | cons it t ih =>
    intro seen acc r hr
    cases it with
    | sec s =>
      simp only [extractGo]
      by_cases hs : s.hasSectno = true
      · rw [if_pos hs]
        by_cases hnum : (secNum s).isEmpty = true ∨ secNum s ∈ seen
        · rw [if_pos hnum]
          exact ih seen acc r hr
        · rw [if_neg hnum]
          exact ih _ _ r (List.mem_append.mpr (Or.inl hr))
      · rw [if_neg hs]
        exact ih seen acc r hr
    | para p =>
      simp only [extractGo]
      exact ih seen acc r hr
    | otherNode =>
      simp only [extractGo]
      exact ih seen acc r hr

theorem extractGo_hits (amap : List Char → Option AmendedInfo) :
    ∀ (pre post : List HtmlItem) (s : SecNode) (seen : List (List Char))
      (acc : List AmendmentRec),
      s.hasSectno = true → ¬ ((secNum s).isEmpty = true) → secNum s ∉ seen →
      (∀ s2, HtmlItem.sec s2 ∈ pre → s2.hasSectno = true →
        secNum s2 ≠ secNum s) →
      extractRecord amap s ∈
        (extractGo amap (pre ++ HtmlItem.sec s :: post) seen acc).2 := by
  intro pre
  induction pre with
  | nil =>
    intro post s seen acc hs hne hseen _
    simp only [List.nil_append, extractGo, if_pos hs]
    rw [if_neg (fun hcon => hcon.elim hne hseen)]
    exact extractGo_mem_mono amap post _ _ _
      (List.mem_append.mpr (Or.inr (List.mem_singleton.mpr rfl)))
  | cons it pre' ih =>
    intro post s seen acc hs hne hseen hpre
    cases it with
    | sec s2 =>
      simp only [List.cons_append, extractGo]
      by_cases hs2 : s2.hasSectno = true
      · rw [if_pos hs2]
        by_cases hcond : (secNum s2).isEmpty = true ∨ secNum s2 ∈ seen
        · rw [if_pos hcond]
          exact ih post s seen acc hs hne hseen
            (fun s3 hm h3 => hpre s3 (List.mem_cons_of_mem _ hm) h3)
        · rw [if_neg hcond]
          refine ih post s _ _ hs hne ?_
            (fun s3 hm h3 => hpre s3 (List.mem_cons_of_mem _ hm) h3)
          intro hmem
          rcases List.mem_cons.mp hmem with he | he
          · exact hpre s2 (List.mem_cons_self _ _) hs2 he.symm
          · exact hseen he
      · rw [if_neg hs2]
        exact ih post s seen acc hs hne hseen
          (fun s3 hm h3 => hpre s3 (List.mem_cons_of_mem _ hm) h3)
    | para p =>
      simp only [List.cons_append, extractGo]
      exact ih post s seen acc hs hne hseen
        (fun s3 hm h3 => hpre s3 (List.mem_cons_of_mem _ hm) h3)
    | otherNode =>
      simp only [List.cons_append, extractGo]
      exact ih post s seen acc hs hne hseen
        (fun s3 hm h3 => hpre s3 (List.mem_cons_of_mem _ hm) h3)

/-- Claim C2: for a section marked `[Amended]` (with a section number
unique in the document), the extractor scans forward through the
amendment-instruction paragraphs after the section node, taking the first
paragraph without a sub-number as the main instruction
(`scanMainText`) and collecting the sub-numbered paragraphs before the
second such paragraph as the content (`scanSubs` — the scan stops at the
first non-matching paragraph after the first mismatch); the resulting
instruction and newline-joined content replace the empty or `[Amended]`
content of that section in the extractor's output. -/
theorem amended_section_forward_scan :
    ∀ (refs : List Char → List (List Char)) (pre post : List HtmlItem)
      (s : SecNode),
      s.hasSectno = true → isAmendedSec s = true →
      ¬ ((secNum s).isEmpty = true) →
      (∀ s2, HtmlItem.sec s2 ∈ pre → s2.hasSectno = true →
        secNum s2 ≠ secNum s) →
      (∀ s2, HtmlItem.sec s2 ∈ post → s2.hasSectno = true →
        secNum s2 ≠ secNum s) →
      (∀ q ∈ amendParts post, q.text ≠ []) →
      scanMainText post ≠ [] →
      (s.rawContent.isEmpty = true ∨
        pyStrip s.rawContent = ("[Amended]".toList)) →
      collect_amended_section_instructions (pre ++ HtmlItem.sec s :: post)
          (secNum s) =
        some { instruction := scanMainText post,
               content := if (scanSubs post).isEmpty then []
                 else joinNL (scanSubs post) } ∧
      { affected_dfars_section := secNum s,
        amendment_instruction := scanMainText post,
        content := if (scanSubs post).isEmpty then []
          else joinNL (scanSubs post) }
        ∈ extract_dfars_sections refs (pre ++ HtmlItem.sec s :: post) := by
  intro refs pre post s h1 h2 h3 h4 h5 h6 h7 h8
  have h3' : (secNum s).isEmpty = false := by
    revert h3; cases (secNum s).isEmpty <;> simp
  have h7' : (scanMainText post).isEmpty = false := by
    revert h7; cases hm : scanMainText post <;> simp
  have hcs : collectsSec s = true := by
    simp [collectsSec, h1, h2, h3']
  have hval : amendedVal post =
      { instruction := scanMainText post,
        content := if (scanSubs post).isEmpty then []
          else joinNL (scanSubs post) } := by
    unfold amendedVal
    rw [collectGo_scan post [] h6]
    simp
  have hpost2 : ∀ s2, HtmlItem.sec s2 ∈ post → collectsSec s2 = true →
      secNum s2 ≠ secNum s := by
    intro s2 hm hc2
    have hsec2 : s2.hasSectno = true := by
      simp only [collectsSec, Bool.and_eq_true] at hc2
      exact hc2.1.2
    exact h5 s2 hm hsec2
  have hcol : collect_amended_section_instructions
      (pre ++ HtmlItem.sec s :: post) (secNum s) = some (amendedVal post) := by
    unfold collect_amended_section_instructions
    exact collectAmended_at pre post s _ hcs hpost2
  refine ⟨by rw [hcol, hval], ?_⟩
  have hrec : extractRecord (collect_amended_section_instructions
        (pre ++ HtmlItem.sec s :: post)) s =
      { affected_dfars_section := secNum s,
        amendment_instruction := scanMainText post,
        content := if (scanSubs post).isEmpty then []
          else joinNL (scanSubs post) } := by
    simp only [extractRecord]
    rw [if_pos h8, hcol, hval]
    dsimp only
    rw [if_pos (by rw [h7']; rfl)]
  have hmem := extractGo_hits (collect_amended_section_instructions
      (pre ++ HtmlItem.sec s :: post)) pre post s [] [] h1 h3 (by simp) h4
  rw [hrec] at hmem
  simp only [extract_dfars_sections]
  rw [if_neg (fun he => by
    rw [List.isEmpty_iff] at he
    rw [he] at hmem
    cases hmem)]
  exact hmem

/-- Witness for C2: applies `amended_section_forward_scan` to a concrete
document with one `[Amended]` section followed by a main instruction
paragraph, two sub-numbered paragraphs, a second main paragraph and a
later sub-paragraph (which the scan must not collect). -/
theorem amended_section_forward_scan_witness :
    collect_amended_section_instructions
        (([] : List HtmlItem) ++ HtmlItem.sec
          { hasSectno := true,
            sectnoId := ("sectno-reference-204.7603".toList),
            subject := some ("204.7603 [Amended]".toList),
            prevInstruction := ("3. Amend section 204.7603:".toList),
            rawContent := [] } ::
          [HtmlItem.para
            { isAmendPart := true, hasSubnum := false,
              text := ("4. Amend section 204.7603 by:".toList) },
           HtmlItem.para
            { isAmendPart := true, hasSubnum := true,
              text := ("a. Removing X".toList) },
           HtmlItem.para
            { isAmendPart := true, hasSubnum := true,
              text := ("b. Adding Y".toList) },
           HtmlItem.para
            { isAmendPart := true, hasSubnum := false,
              text := ("5. Revise section 212.570:".toList) },
           HtmlItem.para
            { isAmendPart := true, hasSubnum := true,
              text := ("c. Later sub".toList) }])
        (secNum
          { hasSectno := true,
            sectnoId := ("sectno-reference-204.7603".toList),
            subject := some ("204.7603 [Amended]".toList),
            prevInstruction := ("3. Amend section 204.7603:".toList),
            rawContent := [] }) =
      some { instruction := scanMainText
              [HtmlItem.para
                { isAmendPart := true, hasSubnum := false,
                  text := ("4. Amend section 204.7603 by:".toList) },
               HtmlItem.para
                { isAmendPart := true, hasSubnum := true,
                  text := ("a. Removing X".toList) },
               HtmlItem.para
                { isAmendPart := true, hasSubnum := true,
                  text := ("b. Adding Y".toList) },
               HtmlItem.para
                { isAmendPart := true, hasSubnum := false,
                  text := ("5. Revise section 212.570:".toList) },
               HtmlItem.para
                { isAmendPart := true, hasSubnum := true,
                  text := ("c. Later sub".toList) }],
             content := if (scanSubs
              [HtmlItem.para
                { isAmendPart := true, hasSubnum := false,
                  text := ("4. Amend section 204.7603 by:".toList) },
               HtmlItem.para
                { isAmendPart := true, hasSubnum := true,
                  text := ("a. Removing X".toList) },
               HtmlItem.para
                { isAmendPart := true, hasSubnum := true,
                  text := ("b. Adding Y".toList) },
               HtmlItem.para
                { isAmendPart := true, hasSubnum := false,
                  text := ("5. Revise section 212.570:".toList) },
               HtmlItem.para
                { isAmendPart := true, hasSubnum := true,
                  text := ("c. Later sub".toList) }]).isEmpty then []
              else joinNL (scanSubs
              [HtmlItem.para
                { isAmendPart := true, hasSubnum := false,
                  text := ("4. Amend section 204.7603 by:".toList) },
               HtmlItem.para
                { isAmendPart := true, hasSubnum := true,
                  text := ("a. Removing X".toList) },
               HtmlItem.para
                { isAmendPart := true, hasSubnum := true,
                  text := ("b. Adding Y".toList) },
               HtmlItem.para
                { isAmendPart := true, hasSubnum := false,
                  text := ("5. Revise section 212.570:".toList) },
               HtmlItem.para
                { isAmendPart := true, hasSubnum := true,
                  text := ("c. Later sub".toList) }]) } ∧
    ("4. Amend section 204.7603 by:".toList,
      ("a. Removing X\nb. Adding Y".toList)) =
      (scanMainText
        [HtmlItem.para
          { isAmendPart := true, hasSubnum := false,
            text := ("4. Amend section 204.7603 by:".toList) },
         HtmlItem.para
          { isAmendPart := true, hasSubnum := true,
            text := ("a. Removing X".toList) },
         HtmlItem.para
          { isAmendPart := true, hasSubnum := true,
            text := ("b. Adding Y".toList) },
         HtmlItem.para
          { isAmendPart := true, hasSubnum := false,
            text := ("5. Revise section 212.570:".toList) },
         HtmlItem.para
          { isAmendPart := true, hasSubnum := true,
            text := ("c. Later sub".toList) }],
       joinNL (scanSubs
        [HtmlItem.para
          { isAmendPart := true, hasSubnum := false,
            text := ("4. Amend section 204.7603 by:".toList) },
         HtmlItem.para
          { isAmendPart := true, hasSubnum := true,
            text := ("a. Removing X".toList) },
         HtmlItem.para
          { isAmendPart := true, hasSubnum := true,
            text := ("b. Adding Y".toList) },
         HtmlItem.para
          { isAmendPart := true, hasSubnum := false,
            text := ("5. Revise section 212.570:".toList) },
         HtmlItem.para
          { isAmendPart := true, hasSubnum := true,
            text := ("c. Later sub".toList) }])) := by
  constructor
  · exact (amended_section_forward_scan (fun _ => []) []
      [HtmlItem.para
        { isAmendPart := true, hasSubnum := false,
          text := ("4. Amend section 204.7603 by:".toList) },
       HtmlItem.para
        { isAmendPart := true, hasSubnum := true,
          text := ("a. Removing X".toList) },
       HtmlItem.para
        { isAmendPart := true, hasSubnum := true,
          text := ("b. Adding Y".toList) },
       HtmlItem.para
        { isAmendPart := true, hasSubnum := false,
          text := ("5. Revise section 212.570:".toList) },
       HtmlItem.para
        { isAmendPart := true, hasSubnum := true,
          text := ("c. Later sub".toList) }]
      { hasSectno := true,
        sectnoId := ("sectno-reference-204.7603".toList),
        subject := some ("204.7603 [Amended]".toList),
        prevInstruction := ("3. Amend section 204.7603:".toList),
        rawContent := [] }
      (by decide) (by decide) (by decide)
      (by intro s2 hm; cases hm)
      (by intro s2 hm; simp at hm)
      (by decide) (by decide) (Or.inl (by decide))).1
  · decide

/- ── Claim C4 ─────────────────────────────────────────────────────── -/

theorem cacheGet_wf {N : Type} (load : Nat → Option N)
    (cache : List (Nat × Option N)) (hwf : ∀ e ∈ cache, e.2 = load e.1)
    (fy : Nat) (v : Option N) (h : cacheGet cache fy = some v) : v = load fy := by
  unfold cacheGet at h
  rw [Option.map_eq_some'] at h
  obtain ⟨e, he, hev⟩ := h
  have hmem := List.mem_of_find?_eq_some he
  have hp := List.find?_some he
  simp only [decide_eq_true_eq] at hp
  rw [← hev, ← hp]
  exact hwf e hmem

theorem lookup_ndaa_text_wf {N S : Type} (load : Nat → Option N)
    (find_sections : N → List Char → List S) (get_section_text_flat : S → List Char)
    (cache : List (Nat × Option N)) (hwf : ∀ e ∈ cache, e.2 = load e.1)
    (p1 p2 : List Char) :
    (lookup_ndaa_text load find_sections get_section_text_flat cache p1 p2).1 =
      lookupPure load find_sections get_section_text_flat p1 p2 ∧
    (∀ e ∈ (lookup_ndaa_text load find_sections get_section_text_flat cache p1 p2).2,
      e.2 = load e.1) := by
  unfold lookupPure
  unfold lookup_ndaa_text
  cases hfy : parse_fy p1 with
  | none => exact ⟨rfl, hwf⟩
  | some fy =>
    dsimp only
    have hnil : cacheGet ([] : List (Nat × Option N)) fy = none := rfl
    rw [hnil]
    cases hcg : cacheGet cache fy with
    | none =>
      dsimp only
      cases hl : load fy with
      | none =>
        refine ⟨rfl, ?_⟩
        intro e he
        rw [List.mem_append] at he
        rcases he with he | he
        · exact hwf e he
        · simp at he
          rw [he, hl]
      | some nd =>
        refine ⟨rfl, ?_⟩
        intro e he
        rw [List.mem_append] at he
        rcases he with he | he
        · exact hwf e he
        · simp at he
          rw [he, hl]
    | some v =>
      have hv : v = load fy := cacheGet_wf load cache hwf fy v hcg
      cases v with
      | none =>
        dsimp only
        rw [← hv]
        exact ⟨rfl, hwf⟩
      | some nd =>
        dsimp only
        rw [← hv]
        exact ⟨rfl, hwf⟩

theorem buildTextCacheGo_spec {N S : Type} (load : Nat → Option N)
    (find_sections : N → List Char → List S)
    (get_section_text_flat : S → List Char) :
    ∀ (ps : List (List Char × List Char)) (nc : List (Nat × Option N))
      (tc : List ((List Char × List Char) × List Char)),
      (∀ e ∈ nc, e.2 = load e.1) →
      buildTextCacheGo load find_sections get_section_text_flat ps nc tc =
        tc ++ ps.map (fun p =>
          (p, lookupPure load find_sections get_section_text_flat p.1 p.2)) := by
  intro ps
  induction ps with
  | nil => intro nc tc _; simp [buildTextCacheGo]
  | cons p t ih =>
    intro nc tc h
    obtain ⟨h1, h2⟩ := lookup_ndaa_text_wf load find_sections get_section_text_flat
      nc h p.1 p.2
    simp only [buildTextCacheGo]
    rw [ih _ _ h2, h1]
    simp

theorem find?_pair_map (g : (List Char × List Char) → List Char) :
    ∀ (ps : List (List Char × List Char)) (q : List Char × List Char), q ∈ ps →
      ((ps.map (fun p => (p, g p))).find? (fun e => e.1 = q)) = some (q, g q) := by
  intro ps
  induction ps with
  | nil => intro q hq; cases hq
  | cons p t ih =>
    intro q hq
    by_cases hpq : p = q
    · subst hpq
      simp [List.find?_cons]
    · have hd : (decide ((p, g p).1 = q)) = false := by simp [hpq]
      rw [List.map_cons, List.find?_cons, hd]
      exact ih q (by
        rcases List.mem_cons.mp hq with rfl | h
        · exact absurd rfl hpq
        · exact h)

/-- Claim C4: in the Statute Text Joiner, the text cache contains exactly
one entry per unique `(ndaa_year, ndaa_section)` pair of the detail rows,
every output row's `ndaa_text` is the (cache-independent) lookup result
for its own pair, and any two output rows sharing a pair carry the
identical `ndaa_text` value. -/
theorem ndaa_text_join_unique_per_pair :
    ∀ {N S : Type} (load : Nat → Option N) (find_sections : N → List Char → List S)
      (get_section_text_flat : S → List Char) (rows : List NdaaRow),
      ((buildTextCache load find_sections get_section_text_flat rows).map
          (fun e => e.1) = uniquePairs rows ∧ (uniquePairs rows).Nodup) ∧
      (∀ r ∈ addNdaaMain load find_sections get_section_text_flat rows,
        r.ndaa_text = lookupPure load find_sections get_section_text_flat
          r.ndaa_year r.ndaa_section) ∧
      (∀ r1 ∈ addNdaaMain load find_sections get_section_text_flat rows,
        ∀ r2 ∈ addNdaaMain load find_sections get_section_text_flat rows,
        r1.ndaa_year = r2.ndaa_year → r1.ndaa_section = r2.ndaa_section →
        r1.ndaa_text = r2.ndaa_text) := by
  intro N S load find_sections get_section_text_flat rows
  have hbt : buildTextCache load find_sections get_section_text_flat rows =
      (uniquePairs rows).map (fun p =>
        (p, lookupPure load find_sections get_section_text_flat p.1 p.2)) := by
    unfold buildTextCache
    rw [buildTextCacheGo_spec load find_sections get_section_text_flat _ [] []
      (by intro e he; cases he)]
    simp
  have hmain : ∀ r ∈ addNdaaMain load find_sections get_section_text_flat rows,
      r.ndaa_text = lookupPure load find_sections get_section_text_flat
        r.ndaa_year r.ndaa_section := by
    intro r hr
    unfold addNdaaMain at hr
    rw [List.mem_map] at hr
    obtain ⟨r0, hr0, rfl⟩ := hr
    have hq : (r0.ndaa_year, r0.ndaa_section) ∈ uniquePairs rows := by
      unfold uniquePairs
      rw [List.mem_dedup, List.mem_map]
      exact ⟨r0, hr0, rfl⟩
    dsimp only
    rw [hbt, find?_pair_map _ _ _ hq]
  have hkeys : (buildTextCache load find_sections get_section_text_flat rows).map
      (fun e => e.1) = uniquePairs rows := by
    rw [hbt, List.map_map]
    conv_rhs => rw [← List.map_id (uniquePairs rows)]
    exact List.map_congr_left (fun a _ => rfl)
  refine ⟨⟨hkeys, List.nodup_dedup _⟩, hmain, ?_⟩
  intro r1 h1 r2 h2 hy hs
  rw [hmain r1 h1, hmain r2 h2, hy, hs]

/-- Witness for C4: applies `ndaa_text_join_unique_per_pair` to a
two-row detail table sharing the pair `(FY24, 831)`, with one-element
statute data, discharging the membership hypothesis there. -/
theorem ndaa_text_join_unique_per_pair_witness :
    (({ ndaa_year := ("FY24".toList), ndaa_section := ("831".toList),
        rest := ("a".toList), ndaa_text := ("T".toList) } : NdaaRowOut)).ndaa_text =
      lookupPure (fun _ => some ()) (fun (_ : Unit) _ => [()])
        (fun (_ : Unit) => ("T".toList)) ("FY24".toList) ("831".toList) :=
  (ndaa_text_join_unique_per_pair (fun _ => some ()) (fun (_ : Unit) _ => [()])
    (fun (_ : Unit) => ("T".toList))
    [{ ndaa_year := ("FY24".toList), ndaa_section := ("831".toList),
       rest := ("a".toList) },
     { ndaa_year := ("FY24".toList), ndaa_section := ("831".toList),
       rest := ("b".toList) }]).2.1
    { ndaa_year := ("FY24".toList), ndaa_section := ("831".toList),
      rest := ("a".toList), ndaa_text := ("T".toList) } (by decide)

/- ── Claim C8 ─────────────────────────────────────────────────────── -/

/-- Claim C8: `parse_fr_date` returns the date normalized to
`YYYY-MM-DD` (year unpadded, month and day zero-padded, as
`strftime("%Y-%m-%d")` renders them) exactly when the stripped input is a
valid date in `MM/DD/YY` or `MM/DD/YYYY` format with the exact CPython
`strptime` field widths (month 1–2 digits, day 1–2 digits or
space-padded ` [1-9]`, year exactly 2 digits for `%y` and exactly 4 for
`%Y`, the two-digit-year format tried first), and returns no result for
every malformed string. -/
theorem parse_fr_date_spec :
    (∀ (s : List Char) (y m d : Nat), SpecValidDate false (pyStrip s) y m d →
      parse_fr_date s = some (fmtIso y m d)) ∧
    (∀ (s : List Char) (y m d : Nat),
      (∀ y2 m2 d2, ¬ SpecValidDate false (pyStrip s) y2 m2 d2) →
      SpecValidDate true (pyStrip s) y m d →
      parse_fr_date s = some (fmtIso y m d)) ∧
    (∀ s : List Char, parse_fr_date s = none ↔
      ∀ y m d, ¬ SpecValidDate false (pyStrip s) y m d ∧
        ¬ SpecValidDate true (pyStrip s) y m d) := by
  refine ⟨?_, ?_, ?_⟩
  · intro s y m d hv
    have hp := (strptimeMDY_iff false (pyStrip s) y m d).mpr hv
    simp only [parse_fr_date, hp]
  · intro s y m d hnone hv
    cases e1 : strptimeMDY false (pyStrip s) with
    | some v =>
      obtain ⟨y2, m2, d2⟩ := v
      exact absurd ((strptimeMDY_iff false (pyStrip s) y2 m2 d2).mp e1)
        (hnone y2 m2 d2)
    | none =>
      have hp := (strptimeMDY_iff true (pyStrip s) y m d).mpr hv
      simp only [parse_fr_date, e1, hp]
  · intro s
    constructor
    · intro hn y m d
      cases e1 : strptimeMDY false (pyStrip s) with
      | some v =>
        obtain ⟨y2, m2, d2⟩ := v
        simp only [parse_fr_date, e1] at hn
        exact Option.noConfusion hn
      | none =>
        cases e2 : strptimeMDY true (pyStrip s) with
        | some v =>
          obtain ⟨y2, m2, d2⟩ := v
          simp only [parse_fr_date, e1, e2] at hn
          exact Option.noConfusion hn
        | none =>
          constructor
          · intro hv
            rw [(strptimeMDY_iff false (pyStrip s) y m d).mpr hv] at e1
            cases e1
          · intro hv
            rw [(strptimeMDY_iff true (pyStrip s) y m d).mpr hv] at e2
            cases e2
    · intro hall
      cases e1 : strptimeMDY false (pyStrip s) with
      | some v =>
        obtain ⟨y2, m2, d2⟩ := v
        exact absurd ((strptimeMDY_iff false (pyStrip s) y2 m2 d2).mp e1)
          (hall y2 m2 d2).1
      | none =>
        cases e2 : strptimeMDY true (pyStrip s) with
        | some v =>
          obtain ⟨y2, m2, d2⟩ := v
          exact absurd ((strptimeMDY_iff true (pyStrip s) y2 m2 d2).mp e2)
            (hall y2 m2 d2).2
        | none => simp only [parse_fr_date, e1, e2]

/-- Witness for C8: applies `parse_fr_date_spec` to the concrete string
`12/26/23`, discharging the format hypothesis there, and to the malformed
string `garbage`. -/
theorem parse_fr_date_spec_witness :
    parse_fr_date ("12/26/23".toList) = some ("2023-12-26".toList) ∧
    parse_fr_date ("garbage".toList) = none := by
  constructor
  · have hv : SpecValidDate false (pyStrip ("12/26/23".toList)) 2023 12 26 :=
      ⟨("12".toList), ("26".toList), ("23".toList), by decide⟩
    have h := parse_fr_date_spec.1 ("12/26/23".toList) 2023 12 26 hv
    rw [h]; decide
  · exact (parse_fr_date_spec.2.2 ("garbage".toList)).mpr (by
      intro y m d
      constructor
      · rintro ⟨mS, dS, yS, hs, -⟩
        have : ('/' : Char) ∈ pyStrip ("garbage".toList) := by
          rw [hs]; simp
        revert this; decide
      · rintro ⟨mS, dS, yS, hs, -⟩
        have : ('/' : Char) ∈ pyStrip ("garbage".toList) := by
          rw [hs]; simp
        revert this; decide)

/- ── Claim C10 ────────────────────────────────────────────────────── -/

/-- Claim C10: a table row with at least 17 columns whose stripped
`ndaa_year` cell or stripped `ndaa_section` cell is empty is skipped as a
header row (regardless of its citation cell); consequently every row
emitted by the Tracker Parser has a non-empty `ndaa_year`, a non-empty
`ndaa_section` and a non-empty `frn_citation`. -/
theorem tracker_rows_nonempty_fields :
    (∀ row : List (Option (List Char)), 17 ≤ row.length →
      pyStrip (cellAt row 0) = [] ∨ pyStrip (cellAt row 1) = [] →
      trackerRowResult row = none) ∧
    (∀ (rows : List (List (Option (List Char)))) (r : TrackerRow),
      r ∈ extract_final_rule_citations rows →
      r.ndaa_year ≠ [] ∧ r.ndaa_section ≠ [] ∧ r.frn_citation ≠ []) := by
  constructor
  · intro row h17 hor
    have hlen : ¬ row.length < 17 := by omega
    rcases hor with h | h
    · simp only [trackerRowResult, hlen, if_false, h, replaceAll_nil]
      rw [if_pos]
      exact Or.inl (by simp [headerYears])
    · simp only [trackerRowResult, hlen, if_false, h, replaceAll_nil]
      rw [if_pos]
      exact Or.inr (Or.inl (by simp [headerSections]))
  · intro rows r hr
    rw [extract_final_rule_citations, List.mem_filterMap] at hr
    obtain ⟨row, _, hrow⟩ := hr
    simp only [trackerRowResult] at hrow
    split at hrow
    · exact absurd hrow (by simp)
    · split at hrow
      · exact absurd hrow (by simp)
      · next hhead =>
        split at hrow
        · exact absurd hrow (by simp)
        · next hfrn =>
          push_neg at hhead
          obtain ⟨hy, hsec, hcit⟩ := hhead
          injection hrow with hrec
          subst hrec
          dsimp only
          refine ⟨?_, ?_, ?_⟩
          · intro hnil
            exact hy (by rw [hnil]; simp [headerYears])
          · intro hnil
            exact hsec (by rw [hnil]; simp [headerSections])
          · simpa [List.isEmpty_iff] using hfrn

/-- Witness for C10: applies `tracker_rows_nonempty_fields` to a concrete
17-column header row (skipped) and to a concrete data row (whose emitted
record has non-empty year, section and citation). -/
theorem tracker_rows_nonempty_fields_witness :
    trackerRowResult (List.replicate 17 none) = none ∧
    (("FY24".toList) ≠ ([] : List Char) ∧ ("831".toList) ≠ ([] : List Char) ∧
     ("88 FR 73238".toList) ≠ ([] : List Char)) := by
  constructor
  · exact tracker_rows_nonempty_fields.1 (List.replicate 17 none) (by simp)
      (Or.inl (by decide))
  · exact tracker_rows_nonempty_fields.2
      [[some ("FY24".toList), some ("831".toList), none, none, none, none, none,
        none, none, none, none, none, none, none, some ("88 FR 73238".toList),
        some ("12/26/23".toList), none]]
      { ndaa_year := ("FY24".toList), ndaa_section := ("831".toList),
        paragraph := [], section_title := [], status := [], case_number := [],
        frn_citation := ("88 FR 73238".toList), fr_date := ("12/26/23".toList) }
      (by decide)

end Dfars
